import Mathlib

/-!
The UTF-8 / UTF-32 codec of cpp-terminal, `cpp-terminal/private/unicode.cpp`.

A shallow embedding of `Term::Private::utf32_to_utf8`, `utf8_to_utf32`,
`utf8_codepoint_size`, `is_valid_utf8`, `is_valid_utf8_code_unit`, and of the
Windows-only `to_narrow` and `to_wide`.

Conventions of the embedding.

* A `std::string` is a `List Nat`; every element is the unsigned value
  (0..255) of one `char`.  `std::string` keeps a terminating NUL right after
  its last character, so a read at an index past the characters yields 0
  (`byteAt`).
* A `char32_t` / `std::u32string` is a `Nat` / `List Nat`.
* `throw Term::Exception(msg)` is `Except.error msg`.
* The two `for` loops are recursions on a fuel argument; a loop that is still
  running when the fuel is used up gives `none`.  The entry points start the
  loops with as much fuel as there are bytes to scan.
* The overloads of one C++ name get distinct names: `utf32_to_utf8_string`
  for the string encoder, `utf8_to_utf32_char` for the single-byte decoder.
* Whether `char` is signed is a parameter of the single-byte decoder.
* The host operating system is a parameter of the platform bridge, and the
  bridge functions return, next to their result, the host calls they made.
* The `_traced` variants of the validity check and of the string decoder are
  the same functions with a record of the indices of the string that they
  read; they return what the plain functions return.
-/

namespace Term.Private

/-! ## Definitions -/

deriving instance DecidableEq for Except

/-- The `char` read by `str[i]` / `*(str.begin() + i)`, as an unsigned byte. -/
def byteAt (str : List Nat) (i : Nat) : Nat := str.getD i 0

/-- The conversion `static_cast<char>(x)` / `static_cast<std::uint8_t>(x)`:
the low eight bits. -/
def toByte (x : Nat) : Nat := x % 256

/-- The function `utf8_codepoint_size` (unicode.cpp:98-107), with
`mask = {128, 224, 240, 248}` and `compare = {0, 192, 224, 240}`. -/
def utf8_codepoint_size (str : Nat) : Nat :=
  if (str &&& 128) = 0 then 1
  else if (str &&& 224) = 192 then 2
  else if (str &&& 240) = 224 then 3
  else if (str &&& 248) = 240 then 4
  else 0

/-- The single-codepoint overload of `utf32_to_utf8` (unicode.cpp:54-72), with
`size = {0x7F, 0x07FF, 0xFFFF, 0x10FFFF}`, `mask = 0x80`, `add = 0x3F`,
`mask_first = {0x1F, 0x0F, 0x07}`, `add_first = {0xC0, 0xE0, 0xF0}` and
`shift = {0, 6, 12, 18}`. -/
def utf32_to_utf8 (codepoint : Nat) (exception : Bool) : Except String (List Nat) :=
  if codepoint ≤ 0x7F then
    .ok [toByte codepoint]
  else if codepoint ≤ 0x07FF then
    .ok [toByte (((codepoint >>> 6) &&& 0x1F) ||| 0xC0),
         toByte (((codepoint >>> 0) &&& 0x3F) ||| 0x80)]
  else if codepoint ≤ 0xFFFF then
    .ok [toByte (((codepoint >>> 12) &&& 0x0F) ||| 0xE0),
         toByte (((codepoint >>> 6) &&& 0x3F) ||| 0x80),
         toByte (((codepoint >>> 0) &&& 0x3F) ||| 0x80)]
  else if codepoint ≤ 0x10FFFF then
    .ok [toByte (((codepoint >>> 18) &&& 0x07) ||| 0xF0),
         toByte (((codepoint >>> 12) &&& 0x3F) ||| 0x80),
         toByte (((codepoint >>> 6) &&& 0x3F) ||| 0x80),
         toByte (((codepoint >>> 0) &&& 0x3F) ||| 0x80)]
  else if exception then
    .error "Invalid UTF32 codepoint."
  else
    .ok [0xEF, 0xBF, 0xBD]

/-- The `for` loop of `is_valid_utf8` (unicode.cpp:171-200) over the range
that stops at index `end_`, with the iterator `it` as an index into `str`. -/
def is_valid_utf8_loop (str : List Nat) (end_ : Nat) : Nat → Nat → Option Bool
  | 0, it => if it ≠ end_ then none else some true
  | fuel + 1, it =>
    if it ≠ end_ then
      let byte_count := utf8_codepoint_size (byteAt str it)
      if it + byte_count > end_ then some false
      else
        match byte_count with
        | 1 =>
          if (byteAt str it &&& 128) ≠ 0 then some false
          else is_valid_utf8_loop str end_ fuel (it + byte_count)
        | 2 =>
          if (byteAt str it &&& 224) ≠ 192 ∨ (byteAt str (it + 1) &&& 192) ≠ 128 then some false
          else is_valid_utf8_loop str end_ fuel (it + byte_count)
        | 3 =>
          if (byteAt str it &&& 240) ≠ 224 ∨ (byteAt str (it + 1) &&& 192) ≠ 128
              ∨ (byteAt str (it + 2) &&& 192) ≠ 128 then some false
          else is_valid_utf8_loop str end_ fuel (it + byte_count)
        | 4 =>
          if (byteAt str it &&& 248) ≠ 240 ∨ (byteAt str (it + 1) &&& 192) ≠ 128
              ∨ (byteAt str (it + 2) &&& 192) ≠ 128 ∨ (byteAt str (it + 3) &&& 192) ≠ 128 then
            some false
          else is_valid_utf8_loop str end_ fuel (it + byte_count)
        | _ => some false
    else some true

/-- The function `is_valid_utf8` (unicode.cpp:163-202) on the iterator pair
`(str.begin() + begin, str.begin() + end_)`. -/
def is_valid_utf8 (str : List Nat) (begin end_ : Nat) : Option Bool :=
  if begin > end_ then some false
  else is_valid_utf8_loop str end_ (end_ - begin) begin

/-- The function `is_valid_utf8_code_unit` (unicode.cpp:161). -/
def is_valid_utf8_code_unit (str : List Nat) : Option Bool :=
  if utf8_codepoint_size (byteAt str 0) = str.length then is_valid_utf8 str 0 str.length
  else some false

/-- The `switch` of the string decoder (unicode.cpp:119-150) at position
`byte`: the values of `error`, `byte` and `ret` after it. -/
def utf8_to_utf32_switch (str : List Nat) (byte : Nat) (ret : List Nat) :
    Option (Bool × Nat × List Nat) :=
  match utf8_codepoint_size (byteAt str byte) with
  | 1 =>
    (is_valid_utf8 str byte (byte + 1)).map fun valid =>
      if valid then (false, byte, ret ++ [toByte (byteAt str byte &&& 127) <<< 0])
      else (true, byte, ret)
  | 2 =>
    (is_valid_utf8 str byte (byte + 2)).map fun valid =>
      if valid then
        (false, byte, ret ++ [(toByte (byteAt str byte &&& 31) <<< 6)
          ||| (toByte (byteAt str (byte + 1) &&& 63) <<< 0)])
      else (true, byte, ret)
  | 3 =>
    (is_valid_utf8 str byte (byte + 3)).map fun valid =>
      if valid then
        (false, byte, ret ++ [(toByte (byteAt str byte &&& 15) <<< 12)
          ||| (toByte (byteAt str (byte + 1) &&& 63) <<< 6)
          ||| (toByte (byteAt str (byte + 2) &&& 63) <<< 0)])
      else (true, byte, ret)
  | 4 =>
    (is_valid_utf8 str byte (byte + 4)).map fun valid =>
      if valid then
        (false, byte, ret ++ [(toByte (byteAt str byte &&& 7) <<< 18)
          ||| (toByte (byteAt str (byte + 1) &&& 63) <<< 12)
          ||| (toByte (byteAt str (byte + 2) &&& 63) <<< 6)
          ||| (toByte (byteAt str (byte + 3) &&& 63) <<< 0)])
      else (true, byte, ret)
  | _ => some (true, byte + 1, ret)

/-- The `for` loop of the string overload of `utf8_to_utf32`
(unicode.cpp:115-157), with `mask = {63, 127, 31, 15, 7}` and
`shift = {0, 6, 12, 18}`. -/
def utf8_to_utf32_loop (str : List Nat) (exception : Bool) :
    Nat → Nat → List Nat → Option (Except String (List Nat))
  | 0, byte, ret => if byte < str.length then none else some (.ok ret)
  | fuel + 1, byte, ret =>
    if byte < str.length then
      let byte_count := utf8_codepoint_size (byteAt str byte)
      match utf8_to_utf32_switch str byte ret with
      | none => none
      | some (error, byte1, ret1) =>
        if error then
          if exception then some (.error "Bad UTF-8 sequence.")
          else utf8_to_utf32_loop str exception fuel (byte1 + byte_count) (ret1 ++ [0xFFFD])
        else utf8_to_utf32_loop str exception fuel (byte1 + byte_count) ret1
    else some (.ok ret)

/-- The string overload of `utf8_to_utf32` (unicode.cpp:109-159). -/
def utf8_to_utf32 (str : List Nat) (exception : Bool) : Option (Except String (List Nat)) :=
  if str.isEmpty then some (.ok [])
  else utf8_to_utf32_loop str exception str.length 0 []

/-- The string overload of `utf32_to_utf8` (unicode.cpp:74-79): the
range-`for` over `str`, with `ret` the bytes appended so far. -/
def utf32_to_utf8_string_loop (exception : Bool) :
    List Nat → List Nat → Except String (List Nat)
  | [], ret => .ok ret
  | codepoint :: str, ret =>
    match utf32_to_utf8 codepoint exception with
    | .error msg => .error msg
    | .ok bytes => utf32_to_utf8_string_loop exception str (ret ++ bytes)

/-- The string overload of `utf32_to_utf8` (unicode.cpp:74-79). -/
def utf32_to_utf8_string (str : List Nat) (exception : Bool) : Except String (List Nat) :=
  utf32_to_utf8_string_loop exception str []

/-- The value of a `char` that holds the byte `b`: `char` is a signed type on
some platforms and an unsigned one on others. -/
def charValue (char_is_signed : Bool) (b : Nat) : Int :=
  if char_is_signed ∧ 128 ≤ b then (b : Int) - 256 else (b : Int)

/-- The `char` overload of `utf8_to_utf32` (unicode.cpp:81-96), with
`max_ascii_value = 127`; `std::numeric_limits<char>::max()` and `lowest()`
are 127 and -128 for a signed `char`, 255 and 0 for an unsigned one. -/
def utf8_to_utf32_char (char_is_signed : Bool) (b : Nat) (exception : Bool) :
    Except String (List Nat) :=
  let character : Int := charValue char_is_signed b
  let char_max : Int := if char_is_signed then 127 else 255
  let char_lowest : Int := if char_is_signed then -128 else 0
  if 0 = character then .ok []
  else if char_max > 127 ∧ character > 127 then
    if exception then .error "the char is not in UTF-8 range." else .ok [0xFFFD]
  else if char_lowest < 0 ∧ character < 0 then
    if exception then .error "the char is not in UTF-8 range." else .ok [0xFFFD]
  else .ok [(character % 4294967296).toNat]

/-! ### The platform bridge (Windows only) -/

/-- A call that the platform bridge makes to the host operating system.
The conversion calls carry the input string, its length as passed and the
size of the output buffer (0 for the sizing call, made with a null buffer). -/
inductive OsCall where
  | WideCharToMultiByte (lpWideCharStr : List Nat) (cchWideChar : Int) (cbMultiByte : Int)
  | MultiByteToWideChar (lpMultiByteStr : List Nat) (cbMultiByte : Int) (cchWideChar : Int)
  | GetLastError
  deriving DecidableEq

/-- The host operating system, as the bridge sees it: what a call returns
and what it writes to the output buffer, given the calls made before it. Of
`GetLastError` only the returned value is used. -/
abbrev HostOS := List OsCall → OsCall → Int × List Nat

/-- Modelled from the spec: the exception classes, declared in
`cpp-terminal/exception.hpp` and `cpp-terminal/private/exception.hpp`, which
are not among the sources. The failures of the platform bridge are
`Term::Exception` with a message (size overflow),
`Term::Private::WindowsException` with the code that `GetLastError` gave
(platform conversion failure, which carries the OS error code), and the
`std::length_error` of the buffer constructor when the host reports a negative
size. -/
inductive BridgeError where
  | exception (msg : String)
  | windowsException (code : Int)
  | lengthError
  deriving DecidableEq

/-- The value of `(std::numeric_limits<int>::max)()` on the platform of the bridge. -/
def INT_MAX : Nat := 2147483647

/-- The output buffer after a conversion call: `size` units, initially all
0, overwritten from the front by what the host wrote. -/
def filledBuffer (size : Nat) (written : List Nat) : List Nat :=
  (written ++ List.replicate size 0).take size

/-- The function `to_narrow` (unicode.cpp:25-37): the result and the calls
made to the host, in order. -/
def to_narrow (os : HostOS) (input : List Nat) :
    Except BridgeError (List Nat) × List OsCall :=
  if input.isEmpty then (.ok [], [])
  else
    let in_size := input.length
    if in_size > INT_MAX then
      (.error (.exception
        ("String size is to big " ++ toString in_size ++ "/" ++ toString INT_MAX)), [])
    else
      let sizing := OsCall.WideCharToMultiByte input in_size 0
      let ret_size := (os [] sizing).1
      if ret_size = 0 then
        (.error (.windowsException (os [sizing] .GetLastError).1), [sizing, .GetLastError])
      else if ret_size < 0 then (.error .lengthError, [sizing])
      else
        let converting := OsCall.WideCharToMultiByte input in_size ret_size
        let ret_error := (os [sizing] converting).1
        let ret := filledBuffer ret_size.toNat (os [sizing] converting).2
        if ret_error = 0 then
          (.error (.windowsException (os [sizing, converting] .GetLastError).1),
            [sizing, converting, .GetLastError])
        else (.ok ret, [sizing, converting])

/-- The function `to_wide` (unicode.cpp:39-51): the result and the calls
made to the host, in order. -/
def to_wide (os : HostOS) (input : List Nat) :
    Except BridgeError (List Nat) × List OsCall :=
  if input.isEmpty then (.ok [], [])
  else
    let in_size := input.length
    if in_size > INT_MAX then
      (.error (.exception
        ("String size is to big " ++ toString in_size ++ "/" ++ toString INT_MAX)), [])
    else
      let sizing := OsCall.MultiByteToWideChar input in_size 0
      let ret_size := (os [] sizing).1
      if ret_size = 0 then
        (.error (.windowsException (os [sizing] .GetLastError).1), [sizing, .GetLastError])
      else if ret_size < 0 then (.error .lengthError, [sizing])
      else
        let converting := OsCall.MultiByteToWideChar input in_size ret_size
        let ret_error := (os [sizing] converting).1
        let ret := filledBuffer ret_size.toNat (os [sizing] converting).2
        if ret_error = 0 then
          (.error (.windowsException (os [sizing, converting] .GetLastError).1),
            [sizing, converting, .GetLastError])
        else (.ok ret, [sizing, converting])

/-! ### The reads of the decoder -/

/-- The `for` loop of `is_valid_utf8` (unicode.cpp:171-200) with a record of
the reads: the same loop as `is_valid_utf8_loop`, which also returns `reads`
extended, in order, by every index at which the loop dereferences an iterator;
an operand of `||` is read only when the operands before it are false. -/
def is_valid_utf8_loop_traced (str : List Nat) (end_ : Nat) :
    Nat → Nat → List Nat → Option (Bool × List Nat)
  | 0, it, reads => if it ≠ end_ then none else some (true, reads)
  | fuel + 1, it, reads =>
    if it ≠ end_ then
      let byte_count := utf8_codepoint_size (byteAt str it)
      let reads := reads ++ [it]
      if it + byte_count > end_ then some (false, reads)
      else
        match byte_count with
        | 1 =>
          if (byteAt str it &&& 128) ≠ 0 then some (false, reads ++ [it])
          else is_valid_utf8_loop_traced str end_ fuel (it + byte_count) (reads ++ [it])
        | 2 =>
          if (byteAt str it &&& 224) ≠ 192 then some (false, reads ++ [it])
          else if (byteAt str (it + 1) &&& 192) ≠ 128 then some (false, reads ++ [it, it + 1])
          else is_valid_utf8_loop_traced str end_ fuel (it + byte_count) (reads ++ [it, it + 1])
        | 3 =>
          if (byteAt str it &&& 240) ≠ 224 then some (false, reads ++ [it])
          else if (byteAt str (it + 1) &&& 192) ≠ 128 then some (false, reads ++ [it, it + 1])
          else if (byteAt str (it + 2) &&& 192) ≠ 128 then
            some (false, reads ++ [it, it + 1, it + 2])
          else
            is_valid_utf8_loop_traced str end_ fuel (it + byte_count)
              (reads ++ [it, it + 1, it + 2])
        | 4 =>
          if (byteAt str it &&& 248) ≠ 240 then some (false, reads ++ [it])
          else if (byteAt str (it + 1) &&& 192) ≠ 128 then some (false, reads ++ [it, it + 1])
          else if (byteAt str (it + 2) &&& 192) ≠ 128 then
            some (false, reads ++ [it, it + 1, it + 2])
          else if (byteAt str (it + 3) &&& 192) ≠ 128 then
            some (false, reads ++ [it, it + 1, it + 2, it + 3])
          else
            is_valid_utf8_loop_traced str end_ fuel (it + byte_count)
              (reads ++ [it, it + 1, it + 2, it + 3])
        | _ => some (false, reads)
    else some (true, reads)

/-- The function `is_valid_utf8` (unicode.cpp:163-202) with a record of the
reads. -/
def is_valid_utf8_traced (str : List Nat) (begin end_ : Nat) (reads : List Nat) :
    Option (Bool × List Nat) :=
  if begin > end_ then some (false, reads)
  else is_valid_utf8_loop_traced str end_ (end_ - begin) begin reads

/-- The `switch` of the string decoder (unicode.cpp:119-150) with a record of
the reads: the values of `error`, `byte`, `ret` and `reads` after it. -/
def utf8_to_utf32_switch_traced (str : List Nat) (byte : Nat) (ret reads : List Nat) :
    Option (Bool × Nat × List Nat × List Nat) :=
  match utf8_codepoint_size (byteAt str byte) with
  | 1 =>
    (is_valid_utf8_traced str byte (byte + 1) reads).map fun r =>
      if r.1 then
        (false, byte, ret ++ [toByte (byteAt str byte &&& 127) <<< 0], r.2 ++ [byte])
      else (true, byte, ret, r.2)
  | 2 =>
    (is_valid_utf8_traced str byte (byte + 2) reads).map fun r =>
      if r.1 then
        (false, byte, ret ++ [(toByte (byteAt str byte &&& 31) <<< 6)
          ||| (toByte (byteAt str (byte + 1) &&& 63) <<< 0)], r.2 ++ [byte, byte + 1])
      else (true, byte, ret, r.2)
  | 3 =>
    (is_valid_utf8_traced str byte (byte + 3) reads).map fun r =>
      if r.1 then
        (false, byte, ret ++ [(toByte (byteAt str byte &&& 15) <<< 12)
          ||| (toByte (byteAt str (byte + 1) &&& 63) <<< 6)
          ||| (toByte (byteAt str (byte + 2) &&& 63) <<< 0)],
          r.2 ++ [byte, byte + 1, byte + 2])
      else (true, byte, ret, r.2)
  | 4 =>
    (is_valid_utf8_traced str byte (byte + 4) reads).map fun r =>
      if r.1 then
        (false, byte, ret ++ [(toByte (byteAt str byte &&& 7) <<< 18)
          ||| (toByte (byteAt str (byte + 1) &&& 63) <<< 12)
          ||| (toByte (byteAt str (byte + 2) &&& 63) <<< 6)
          ||| (toByte (byteAt str (byte + 3) &&& 63) <<< 0)],
          r.2 ++ [byte, byte + 1, byte + 2, byte + 3])
      else (true, byte, ret, r.2)
  | _ => some (true, byte + 1, ret, reads)

/-- The `for` loop of the string overload of `utf8_to_utf32`
(unicode.cpp:115-157) with a record of the reads: the same loop as
`utf8_to_utf32_loop`, which also returns every index of `str` that was read,
in order, by the loop itself or by the `is_valid_utf8` calls it makes. -/
def utf8_to_utf32_loop_traced (str : List Nat) (exception : Bool) :
    Nat → Nat → List Nat → List Nat → Option (Except String (List Nat) × List Nat)
  | 0, byte, ret, reads => if byte < str.length then none else some (.ok ret, reads)
  | fuel + 1, byte, ret, reads =>
    if byte < str.length then
      let byte_count := utf8_codepoint_size (byteAt str byte)
      match utf8_to_utf32_switch_traced str byte ret (reads ++ [byte]) with
      | none => none
      | some (error, byte1, ret1, reads1) =>
        if error then
          if exception then some (.error "Bad UTF-8 sequence.", reads1)
          else
            utf8_to_utf32_loop_traced str exception fuel (byte1 + byte_count) (ret1 ++ [0xFFFD])
              reads1
        else utf8_to_utf32_loop_traced str exception fuel (byte1 + byte_count) ret1 reads1
    else some (.ok ret, reads)

/-- The string overload of `utf8_to_utf32` (unicode.cpp:109-159) with a record
of the reads: the result and the indices of `str` that were read. -/
def utf8_to_utf32_traced (str : List Nat) (exception : Bool) :
    Option (Except String (List Nat) × List Nat) :=
  if str.isEmpty then some (.ok [], [])
  else utf8_to_utf32_loop_traced str exception str.length 0 [] []

/-! ## Index-level view of one loop iteration -/

/-- The test that `case byte_count` of `is_valid_utf8` makes on the code unit
that starts at index `p`: `true` when the loop goes on. -/
def unitCheck (str : List Nat) (p : Nat) : Bool :=
  match utf8_codepoint_size (byteAt str p) with
  | 1 => decide ((byteAt str p &&& 128) = 0)
  | 2 => decide ((byteAt str p &&& 224) = 192 ∧ (byteAt str (p + 1) &&& 192) = 128)
  | 3 => decide ((byteAt str p &&& 240) = 224 ∧ (byteAt str (p + 1) &&& 192) = 128
      ∧ (byteAt str (p + 2) &&& 192) = 128)
  | 4 => decide ((byteAt str p &&& 248) = 240 ∧ (byteAt str (p + 1) &&& 192) = 128
      ∧ (byteAt str (p + 2) &&& 192) = 128 ∧ (byteAt str (p + 3) &&& 192) = 128)
  | _ => false

/-- The codepoint that the decoder's `switch` pushes for a valid code unit
that starts at index `p`. -/
def payloadAt (str : List Nat) (p : Nat) : Nat :=
  match utf8_codepoint_size (byteAt str p) with
  | 1 => toByte (byteAt str p &&& 127) <<< 0
  | 2 => (toByte (byteAt str p &&& 31) <<< 6) ||| (toByte (byteAt str (p + 1) &&& 63) <<< 0)
  | 3 => (toByte (byteAt str p &&& 15) <<< 12) ||| (toByte (byteAt str (p + 1) &&& 63) <<< 6)
      ||| (toByte (byteAt str (p + 2) &&& 63) <<< 0)
  | 4 => (toByte (byteAt str p &&& 7) <<< 18) ||| (toByte (byteAt str (p + 1) &&& 63) <<< 12)
      ||| (toByte (byteAt str (p + 2) &&& 63) <<< 6) ||| (toByte (byteAt str (p + 3) &&& 63) <<< 0)
  | _ => 0

/-- The number of bytes one decoder iteration advances: the classified
length, or 1 when the lead byte does not classify. -/
def advance (b : Nat) : Nat :=
  if utf8_codepoint_size b = 0 then 1 else utf8_codepoint_size b

/-- Prepending the codepoints that were already pushed to a decoder result. -/
def pushFront (ret : List Nat) (r : Option (Except String (List Nat))) :
    Option (Except String (List Nat)) :=
  r.map (Except.map (ret ++ ·))

/-! ## The vocabulary of the specification -/

/-- A continuation byte: a byte of the form `10xxxxxx`. -/
def isContinuation (b : Nat) : Bool := decide ((b &&& 0xC0) = 0x80)

/-- A well-formed code unit: a lead byte whose classification is `n` in
`{1, 2, 3, 4}`, followed by exactly `n - 1` continuation bytes. -/
def wellFormedUnit : List Nat → Bool
  | [] => false
  | b0 :: t => utf8_codepoint_size b0 == t.length + 1 && t.all isContinuation

/-- The payload bits of a code unit of 1 to 4 bytes, unpacked. -/
def payload : List Nat → Nat
  | [b0] => b0 &&& 0x7F
  | [b0, b1] => ((b0 &&& 0x1F) <<< 6) ||| (b1 &&& 0x3F)
  | [b0, b1, b2] => ((b0 &&& 0x0F) <<< 12) ||| ((b1 &&& 0x3F) <<< 6) ||| (b2 &&& 0x3F)
  | [b0, b1, b2, b3] =>
    ((b0 &&& 0x07) <<< 18) ||| ((b1 &&& 0x3F) <<< 12) ||| ((b2 &&& 0x3F) <<< 6) ||| (b3 &&& 0x3F)
  | _ => 0

/-- An overlong code unit: it matches the UTF-8 bit patterns, but its payload
value fits a shorter length (a 2-byte unit with value at most `0x7F`, a 3-byte
unit with value at most `0x7FF`, a 4-byte unit with value at most `0xFFFF`). -/
def isOverlong (u : List Nat) : Bool :=
  wellFormedUnit u &&
    ((u.length == 2 && decide (payload u ≤ 0x7F)) || (u.length == 3 && decide (payload u ≤ 0x7FF))
      || (u.length == 4 && decide (payload u ≤ 0xFFFF)))

/-- What one element `c` contributes to the output of the string encoder
called with the flag `f`: the bytes `p` that the single-codepoint encoder
returns for it, which are `EF BF BD` when `c` is out of range. -/
def encodesTo (f : Bool) (c : Nat) (p : List Nat) : Prop :=
  utf32_to_utf8 c f = .ok p ∧ (0x10FFFF < c → p = [0xEF, 0xBF, 0xBD])

/-! ## Theorems -/

theorem utf8_codepoint_size_cases (b : Nat) :
    utf8_codepoint_size b = 0 ∨ utf8_codepoint_size b = 1 ∨ utf8_codepoint_size b = 2
      ∨ utf8_codepoint_size b = 3 ∨ utf8_codepoint_size b = 4 := by
  unfold utf8_codepoint_size
  split_ifs <;> simp

theorem is_valid_utf8_loop_at_end (str : List Nat) (end_ fuel : Nat) :
    is_valid_utf8_loop str end_ fuel end_ = some true := by
  cases fuel <;> simp [is_valid_utf8_loop]

theorem is_valid_utf8_unit (str : List Nat) (p : Nat)
    (hn : 1 ≤ utf8_codepoint_size (byteAt str p)) :
    is_valid_utf8 str p (p + utf8_codepoint_size (byteAt str p)) = some (unitCheck str p) := by
  rcases utf8_codepoint_size_cases (byteAt str p) with h | h | h | h | h
  · omega
  all_goals
    simp only [h, is_valid_utf8, unitCheck]
    simp [is_valid_utf8_loop, h, is_valid_utf8_loop_at_end]
    clear h hn
    split_ifs with hc
    · simp only [Option.some.injEq]; symm; simp; tauto
    · simp only [Option.some.injEq]; symm; simp; tauto

theorem utf8_to_utf32_loop_step (str : List Nat) (e : Bool) (fuel byte : Nat) (ret : List Nat)
    (hb : byte < str.length) :
    utf8_to_utf32_loop str e (fuel + 1) byte ret =
      if unitCheck str byte then
        utf8_to_utf32_loop str e fuel (byte + advance (byteAt str byte))
          (ret ++ [payloadAt str byte])
      else if e then some (.error "Bad UTF-8 sequence.")
      else utf8_to_utf32_loop str e fuel (byte + advance (byteAt str byte)) (ret ++ [0xFFFD]) := by
  rcases utf8_codepoint_size_cases (byteAt str byte) with h | h | h | h | h
  · simp [utf8_to_utf32_loop, utf8_to_utf32_switch, unitCheck, advance, h, hb]
  all_goals
    have hv := is_valid_utf8_unit str byte (by omega)
    rw [h] at hv
    cases hu : unitCheck str byte <;>
      simp [utf8_to_utf32_loop, utf8_to_utf32_switch, advance, payloadAt, h, hb, hv, hu]

theorem utf8_to_utf32_loop_done (str : List Nat) (e : Bool) (fuel byte : Nat) (ret : List Nat)
    (hb : str.length ≤ byte) :
    utf8_to_utf32_loop str e fuel byte ret = some (.ok ret) := by
  cases fuel <;> simp [utf8_to_utf32_loop, Nat.not_lt.mpr hb]

theorem byteAt_drop (str : List Nat) (p k : Nat) :
    byteAt (str.drop p) k = byteAt str (p + k) := by
  simp [byteAt, List.getD_eq_getElem?_getD, List.getElem?_drop]

theorem unitCheck_drop (str : List Nat) (p : Nat) :
    unitCheck (str.drop p) 0 = unitCheck str p := by
  simp [unitCheck, byteAt_drop]

theorem payloadAt_drop (str : List Nat) (p : Nat) :
    payloadAt (str.drop p) 0 = payloadAt str p := by
  simp [payloadAt, byteAt_drop]

theorem advance_pos (b : Nat) : 1 ≤ advance b := by
  unfold advance
  split_ifs <;> omega

theorem pushFront_pushFront (a b : List Nat) (r : Option (Except String (List Nat))) :
    pushFront a (pushFront b r) = pushFront (a ++ b) r := by
  rcases r with _ | _ | _ <;> simp [pushFront, Except.map]

theorem pushFront_ok (a b : List Nat) : pushFront a (some (.ok b)) = some (.ok (a ++ b)) := rfl

theorem pushFront_error (a : List Nat) (m : String) :
    pushFront a (some (.error m)) = some (.error m) := rfl

theorem pushFront_nil (r : Option (Except String (List Nat))) : pushFront [] r = r := by
  rcases r with _ | _ | _ <;> simp [pushFront, Except.map]

/-- The decoder loop started at index `byte` with `ret` already pushed does
what a fresh decoder does on the bytes from `byte` on. -/
theorem utf8_to_utf32_loop_drop (e : Bool) :
    ∀ (m : Nat) (str : List Nat) (byte fuel : Nat) (ret : List Nat),
      str.length - byte ≤ m → str.length - byte ≤ fuel →
      utf8_to_utf32_loop str e fuel byte ret =
        pushFront ret (utf8_to_utf32_loop (str.drop byte) e (str.length - byte) 0 []) := by
  intro m
  induction m with
  | zero =>
    intro str byte fuel ret hm _
    have hlen : (str.drop byte).length ≤ 0 := by simp; omega
    rw [utf8_to_utf32_loop_done str e fuel byte ret (by omega),
      utf8_to_utf32_loop_done _ e _ 0 [] hlen, pushFront_ok, List.append_nil]
  | succ m ih =>
    intro str byte fuel ret hm hf
    by_cases hb : str.length ≤ byte
    · have hlen : (str.drop byte).length ≤ 0 := by simp; omega
      rw [utf8_to_utf32_loop_done str e fuel byte ret hb,
        utf8_to_utf32_loop_done _ e _ 0 [] hlen, pushFront_ok, List.append_nil]
    · have hb1 : byte < str.length := by omega
      obtain ⟨f, rfl⟩ : ∃ f, fuel = f + 1 := ⟨fuel - 1, by omega⟩
      obtain ⟨g, hg⟩ : ∃ g, str.length - byte = g + 1 := ⟨str.length - byte - 1, by omega⟩
      have hpos := advance_pos (byteAt str byte)
      have hlen0 : 0 < (str.drop byte).length := by simp; omega
      have key : ∀ x : List Nat,
          utf8_to_utf32_loop str e f (byte + advance (byteAt str byte)) (ret ++ x) =
            pushFront ret (utf8_to_utf32_loop (str.drop byte) e g
              (0 + advance (byteAt str byte)) ([] ++ x)) := by
        intro x
        rw [ih str (byte + advance (byteAt str byte)) f (ret ++ x) (by omega) (by omega),
          ih (str.drop byte) (0 + advance (byteAt str byte)) g ([] ++ x)
            (by simp; omega) (by simp; omega),
          pushFront_pushFront]
        simp [List.drop_drop, Nat.add_comm, Nat.sub_sub]
      rw [utf8_to_utf32_loop_step str e f byte ret hb1, hg,
        utf8_to_utf32_loop_step _ e g 0 [] hlen0, unitCheck_drop, payloadAt_drop,
        byteAt_drop, Nat.add_zero]
      cases unitCheck str byte
      · cases e
        · simpa using key [0xFFFD]
        · simp [pushFront_error]
      · simpa using key [payloadAt str byte]

theorem utf8_to_utf32_eq_loop (s : List Nat) (e : Bool) :
    utf8_to_utf32 s e = utf8_to_utf32_loop s e s.length 0 [] := by
  cases s <;> simp [utf8_to_utf32, utf8_to_utf32_loop]

/-- One decoder iteration, at the level of the whole call. -/
theorem utf8_to_utf32_cons (s : List Nat) (e : Bool) (hs : s ≠ []) :
    utf8_to_utf32 s e =
      if unitCheck s 0 then
        pushFront [payloadAt s 0] (utf8_to_utf32 (s.drop (advance (byteAt s 0))) e)
      else if e then some (.error "Bad UTF-8 sequence.")
      else pushFront [0xFFFD] (utf8_to_utf32 (s.drop (advance (byteAt s 0))) e) := by
  have hlen : 0 < s.length := List.length_pos.mpr hs
  obtain ⟨k, hk⟩ : ∃ k, s.length = k + 1 := ⟨s.length - 1, by omega⟩
  have hpos := advance_pos (byteAt s 0)
  have key : ∀ x : List Nat,
      utf8_to_utf32_loop s e k (0 + advance (byteAt s 0)) ([] ++ x) =
        pushFront x (utf8_to_utf32 (s.drop (advance (byteAt s 0))) e) := by
    intro x
    rw [utf8_to_utf32_loop_drop e s.length s _ k _ (by omega) (by omega), utf8_to_utf32_eq_loop]
    simp
  rw [utf8_to_utf32_eq_loop, hk, utf8_to_utf32_loop_step s e k 0 [] hlen, key, key]

theorem toByte_of_lt {x : Nat} (h : x < 256) : toByte x = x := Nat.mod_eq_of_lt h

theorem toByte_and (b m : Nat) (hm : m < 256) : toByte (b &&& m) = b &&& m :=
  toByte_of_lt (Nat.lt_of_le_of_lt Nat.and_le_right hm)

theorem utf8_codepoint_size_lead (b : Nat) :
    (utf8_codepoint_size b = 1 → b &&& 128 = 0) ∧ (utf8_codepoint_size b = 2 → b &&& 224 = 192)
      ∧ (utf8_codepoint_size b = 3 → b &&& 240 = 224)
      ∧ (utf8_codepoint_size b = 4 → b &&& 248 = 240) := by
  unfold utf8_codepoint_size
  split_ifs <;> simp_all

/-- On a string that starts with a well-formed code unit, the decoder's
iteration accepts the unit, pushes its payload and advances past it. -/
theorem wellFormedUnit_head (u rest : List Nat) (hu : wellFormedUnit u = true) :
    unitCheck (u ++ rest) 0 = true ∧ payloadAt (u ++ rest) 0 = payload u
      ∧ advance (byteAt (u ++ rest) 0) = u.length := by
  rcases u with _ | ⟨b0, t⟩
  · simp [wellFormedUnit] at hu
  simp only [wellFormedUnit, Bool.and_eq_true, beq_iff_eq, List.all_eq_true] at hu
  obtain ⟨hsz, hc⟩ := hu
  have hlead := utf8_codepoint_size_lead b0
  rcases utf8_codepoint_size_cases b0 with h | h | h | h | h
  · omega
  · obtain rfl : t = [] := List.length_eq_zero.mp (by omega)
    simp [unitCheck, payloadAt, advance, byteAt, payload, h, hlead.1 h, toByte_and]
  · rcases t with _ | ⟨b1, _ | ⟨b2, t⟩⟩ <;> simp at hsz <;> try omega
    simp [isContinuation] at hc
    simp [unitCheck, payloadAt, advance, byteAt, payload, h, hlead.2.1 h, hc, toByte_and]
  · rcases t with _ | ⟨b1, _ | ⟨b2, _ | ⟨b3, t⟩⟩⟩ <;> simp at hsz <;> try omega
    simp [isContinuation] at hc
    simp [unitCheck, payloadAt, advance, byteAt, payload, h, hlead.2.2.1 h, hc, toByte_and]
  · rcases t with _ | ⟨b1, _ | ⟨b2, _ | ⟨b3, _ | ⟨b4, t⟩⟩⟩⟩ <;> simp at hsz <;> try omega
    simp [isContinuation] at hc
    simp [unitCheck, payloadAt, advance, byteAt, payload, h, hlead.2.2.2 h, hc, toByte_and]

theorem wellFormedUnit_ne_nil (u : List Nat) (hu : wellFormedUnit u = true) : u ≠ [] := by
  rintro rfl
  simp [wellFormedUnit] at hu

/-- Decoding a string that starts with a well-formed code unit. -/
theorem utf8_to_utf32_unit_append (u rest : List Nat) (e : Bool)
    (hu : wellFormedUnit u = true) :
    utf8_to_utf32 (u ++ rest) e = pushFront [payload u] (utf8_to_utf32 rest e) := by
  obtain ⟨h1, h2, h3⟩ := wellFormedUnit_head u rest hu
  have hne : u ++ rest ≠ [] := by
    simp [wellFormedUnit_ne_nil u hu]
  rw [utf8_to_utf32_cons _ e hne, h1, h2, h3]
  simp

/-- C3: on a concatenation of well-formed code units (a lead byte classified
`n` in `{1,2,3,4}` followed by `n - 1` continuation bytes) the string decoder,
with either flag, returns one codepoint per unit, in order, equal to the
unit's unpacked payload bits; `C2 80` decodes to `[U+0080]` and `F0 9F A7 BE`
to `[U+1F9FE]`. -/
theorem utf8_to_utf32_well_formed :
    (∀ (units : List (List Nat)) (e : Bool), (∀ u ∈ units, wellFormedUnit u = true) →
      utf8_to_utf32 units.flatten e = some (.ok (units.map payload)))
    ∧ (∀ e, utf8_to_utf32 [0xC2, 0x80] e = some (.ok [0x80]))
    ∧ (∀ e, utf8_to_utf32 [0xF0, 0x9F, 0xA7, 0xBE] e = some (.ok [0x1F9FE])) := by
  refine ⟨?_, by decide, by decide⟩
  intro units e
  induction units with
  | nil => intro _; rfl
  | cons u us ih =>
    intro h
    rw [List.flatten_cons, utf8_to_utf32_unit_append u _ e (h u (List.mem_cons_self _ _)),
      ih (fun v hv => h v (List.mem_cons_of_mem _ hv))]
    rfl

theorem utf8_to_utf32_well_formed_witness :
    utf8_to_utf32 [[0x61], [0xC3, 0xB1], [0xE2, 0x82, 0xA1], [0xF0, 0x90, 0x8C, 0xBC]].flatten true
      = some (.ok ([[0x61], [0xC3, 0xB1], [0xE2, 0x82, 0xA1], [0xF0, 0x90, 0x8C, 0xBC]].map payload)) :=
  utf8_to_utf32_well_formed.1 _ true (by decide)

/-! ### Bit operations as arithmetic -/

theorem shiftLeft_or_eq_add (a b i : Nat) (hb : b < 2 ^ i) :
    (a <<< i) ||| b = a * 2 ^ i + b := by
  rw [Nat.shiftLeft_eq, Nat.mul_comm, ← Nat.mul_add_lt_is_or hb]

theorem and_127 (x : Nat) : x &&& 127 = x % 128 := Nat.and_pow_two_sub_one_eq_mod x 7

theorem and_63 (x : Nat) : x &&& 63 = x % 64 := Nat.and_pow_two_sub_one_eq_mod x 6

theorem and_31 (x : Nat) : x &&& 31 = x % 32 := Nat.and_pow_two_sub_one_eq_mod x 5

theorem and_15 (x : Nat) : x &&& 15 = x % 16 := Nat.and_pow_two_sub_one_eq_mod x 4

theorem and_7 (x : Nat) : x &&& 7 = x % 8 := Nat.and_pow_two_sub_one_eq_mod x 3

theorem or2_eq (h l : Nat) (hl : l < 64) : (h <<< 6) ||| l = h * 64 + l :=
  shiftLeft_or_eq_add h l 6 hl

theorem or3_eq (h m l : Nat) (hm : m < 64) (hl : l < 64) :
    (h <<< 12) ||| (m <<< 6) ||| l = h * 4096 + m * 64 + l := by
  have h2 : (m <<< 6) ||| l < 2 ^ 12 := by rw [or2_eq m l hl]; omega
  rw [Nat.or_assoc, shiftLeft_or_eq_add _ _ _ h2, or2_eq m l hl]
  omega

theorem or4_eq (h a m l : Nat) (ha : a < 64) (hm : m < 64) (hl : l < 64) :
    (h <<< 18) ||| (a <<< 12) ||| (m <<< 6) ||| l = h * 262144 + a * 4096 + m * 64 + l := by
  have h3 : (a <<< 12) ||| (m <<< 6) ||| l < 2 ^ 18 := by rw [or3_eq a m l hm hl]; omega
  rw [Nat.or_assoc, Nat.or_assoc, ← Nat.or_assoc (a <<< 12), shiftLeft_or_eq_add _ _ _ h3,
    or3_eq a m l hm hl]
  omega

/-- The payload of a code unit, as arithmetic on its bytes. -/
theorem payload_eq_arith :
    (∀ b0, payload [b0] = b0 % 128)
    ∧ (∀ b0 b1, payload [b0, b1] = b0 % 32 * 64 + b1 % 64)
    ∧ (∀ b0 b1 b2, payload [b0, b1, b2] = b0 % 16 * 4096 + b1 % 64 * 64 + b2 % 64)
    ∧ (∀ b0 b1 b2 b3, payload [b0, b1, b2, b3]
        = b0 % 8 * 262144 + b1 % 64 * 4096 + b2 % 64 * 64 + b3 % 64) := by
  refine ⟨fun b0 => and_127 b0, fun b0 b1 => ?_, fun b0 b1 b2 => ?_, fun b0 b1 b2 b3 => ?_⟩
  · simp only [payload]
    rw [or2_eq _ _ (by rw [and_63]; omega), and_63, and_31]
  · simp only [payload]
    rw [or3_eq _ _ _ (by rw [and_63]; omega) (by rw [and_63]; omega), and_63, and_63, and_15]
  · simp only [payload]
    rw [or4_eq _ _ _ _ (by rw [and_63]; omega) (by rw [and_63]; omega) (by rw [and_63]; omega),
      and_63, and_63, and_63, and_7]

/-! ### The bytes the encoder writes -/

set_option maxRecDepth 100000 in
theorem encoded_lead1 :
    ∀ c < 128, utf8_codepoint_size (toByte c) = 1 ∧ toByte c % 128 = c := by decide

set_option maxRecDepth 100000 in
theorem encoded_lead2 :
    ∀ h < 32, utf8_codepoint_size (toByte (h ||| 0xC0)) = 2 ∧ toByte (h ||| 0xC0) % 32 = h := by
  decide

theorem encoded_lead3 :
    ∀ h < 16, utf8_codepoint_size (toByte (h ||| 0xE0)) = 3 ∧ toByte (h ||| 0xE0) % 16 = h := by
  decide

theorem encoded_lead4 :
    ∀ h < 8, utf8_codepoint_size (toByte (h ||| 0xF0)) = 4 ∧ toByte (h ||| 0xF0) % 8 = h := by
  decide

set_option maxRecDepth 100000 in
theorem encoded_continuation :
    ∀ l < 64, isContinuation (toByte (l ||| 0x80)) = true ∧ toByte (l ||| 0x80) % 64 = l := by
  decide

/-- For a codepoint in range the encoder writes one well-formed code unit
whose payload is the codepoint. -/
theorem utf32_to_utf8_unit (c : Nat) (hc : c ≤ 0x10FFFF) (e : Bool) :
    ∃ u, utf32_to_utf8 c e = .ok u ∧ wellFormedUnit u = true ∧ payload u = c := by
  obtain ⟨p1, p2, p3, p4⟩ := payload_eq_arith
  unfold utf32_to_utf8
  split_ifs with h1 h2 h3
  · obtain ⟨ha, hb⟩ := encoded_lead1 c (by omega)
    exact ⟨_, rfl, by simp [wellFormedUnit, ha], by rw [p1, hb]⟩
  · have k0 : (c >>> 6) &&& 0x1F < 32 := by rw [and_31]; omega
    have k1 : (c >>> 0) &&& 0x3F < 64 := by rw [and_63]; omega
    refine ⟨_, rfl, ?_, ?_⟩
    · simp [-Nat.shiftRight_zero, wellFormedUnit, (encoded_lead2 _ k0).1, (encoded_continuation _ k1).1]
    · rw [p2, (encoded_lead2 _ k0).2, (encoded_continuation _ k1).2, and_31, and_63]
      simp only [Nat.shiftRight_eq_div_pow]
      omega
  · have k0 : (c >>> 12) &&& 0x0F < 16 := by rw [and_15]; omega
    have k1 : (c >>> 6) &&& 0x3F < 64 := by rw [and_63]; omega
    have k2 : (c >>> 0) &&& 0x3F < 64 := by rw [and_63]; omega
    refine ⟨_, rfl, ?_, ?_⟩
    · simp [-Nat.shiftRight_zero, wellFormedUnit, (encoded_lead3 _ k0).1, (encoded_continuation _ k1).1,
        (encoded_continuation _ k2).1]
    · rw [p3, (encoded_lead3 _ k0).2, (encoded_continuation _ k1).2,
        (encoded_continuation _ k2).2, and_15, and_63, and_63]
      simp only [Nat.shiftRight_eq_div_pow]
      omega
  · have k0 : (c >>> 18) &&& 0x07 < 8 := by rw [and_7]; omega
    have k1 : (c >>> 12) &&& 0x3F < 64 := by rw [and_63]; omega
    have k2 : (c >>> 6) &&& 0x3F < 64 := by rw [and_63]; omega
    have k3 : (c >>> 0) &&& 0x3F < 64 := by rw [and_63]; omega
    refine ⟨_, rfl, ?_, ?_⟩
    · simp [-Nat.shiftRight_zero, wellFormedUnit, (encoded_lead4 _ k0).1, (encoded_continuation _ k1).1,
        (encoded_continuation _ k2).1, (encoded_continuation _ k3).1]
    · rw [p4, (encoded_lead4 _ k0).2, (encoded_continuation _ k1).2,
        (encoded_continuation _ k2).2, (encoded_continuation _ k3).2, and_7, and_63, and_63,
        and_63]
      simp only [Nat.shiftRight_eq_div_pow]
      omega

/-- C1: for every codepoint `c ≤ 0x10FFFF` (surrogates and 0 included) and
either value of either flag, the string decoder applied to the bytes that the
single-codepoint encoder returns gives exactly `[c]`. -/
theorem utf8_to_utf32_utf32_to_utf8 (c : Nat) (hc : c ≤ 0x10FFFF) (e1 e2 : Bool) :
    ∃ s, utf32_to_utf8 c e1 = .ok s ∧ utf8_to_utf32 s e2 = some (.ok [c]) := by
  obtain ⟨u, hu, hwf, hp⟩ := utf32_to_utf8_unit c hc e1
  refine ⟨u, hu, ?_⟩
  have := utf8_to_utf32_unit_append u [] e2 hwf
  rw [List.append_nil, hp] at this
  rw [this]
  rfl

theorem utf8_to_utf32_utf32_to_utf8_witness :
    ∃ s, utf32_to_utf8 0xD800 true = .ok s ∧ utf8_to_utf32 s false = some (.ok [0xD800]) :=
  utf8_to_utf32_utf32_to_utf8 0xD800 (by decide) true false

theorem toByte_or (x m : Nat) (hx : x < 256) (hm : m < 256) : toByte (x ||| m) = x ||| m :=
  toByte_of_lt (Nat.or_lt_two_pow (n := 8) hx hm)

/-- C2: for every codepoint `c ≤ 0x10FFFF` the single-codepoint encoder
returns the standard UTF-8 bytes of its numeric range (1 byte up to `0x7F`,
2 bytes up to `0x7FF`, 3 bytes up to `0xFFFF`, 4 bytes up to `0x10FFFF`);
U+0001 gives `01`, U+0080 gives `C2 80`, U+0800 gives `E0 A0 80` and U+10FFFF
gives `F4 8F BF BF`. -/
theorem utf32_to_utf8_standard_bytes :
    (∀ (c : Nat) (e : Bool),
      (c ≤ 0x7F → utf32_to_utf8 c e = .ok [c])
      ∧ (0x80 ≤ c → c ≤ 0x7FF →
          utf32_to_utf8 c e = .ok [0xC0 ||| (c >>> 6), 0x80 ||| (c &&& 0x3F)])
      ∧ (0x800 ≤ c → c ≤ 0xFFFF →
          utf32_to_utf8 c e
            = .ok [0xE0 ||| (c >>> 12), 0x80 ||| ((c >>> 6) &&& 0x3F), 0x80 ||| (c &&& 0x3F)])
      ∧ (0x10000 ≤ c → c ≤ 0x10FFFF →
          utf32_to_utf8 c e
            = .ok [0xF0 ||| (c >>> 18), 0x80 ||| ((c >>> 12) &&& 0x3F),
                0x80 ||| ((c >>> 6) &&& 0x3F), 0x80 ||| (c &&& 0x3F)]))
    ∧ (∀ e, utf32_to_utf8 0x1 e = .ok [0x01])
    ∧ (∀ e, utf32_to_utf8 0x80 e = .ok [0xC2, 0x80])
    ∧ (∀ e, utf32_to_utf8 0x800 e = .ok [0xE0, 0xA0, 0x80])
    ∧ (∀ e, utf32_to_utf8 0x10FFFF e = .ok [0xF4, 0x8F, 0xBF, 0xBF]) := by
  refine ⟨fun c e => ⟨fun h => ?_, fun h h' => ?_, fun h h' => ?_, fun h h' => ?_⟩,
    by decide, by decide, by decide, by decide⟩
  · simp [utf32_to_utf8, h, toByte_of_lt (show c < 256 by omega)]
  · have k : (c >>> 6) &&& 0x1F = c >>> 6 := by
      rw [and_31, Nat.shiftRight_eq_div_pow]; omega
    have k0 : c >>> 6 < 256 := by rw [Nat.shiftRight_eq_div_pow]; omega
    have c0 : c &&& 0x3F < 256 := by rw [and_63]; omega
    simp [utf32_to_utf8, show ¬ c ≤ 127 by omega, h', k, toByte_or, k0, c0, Nat.or_comm]
  · have k : (c >>> 12) &&& 0x0F = c >>> 12 := by
      rw [and_15, Nat.shiftRight_eq_div_pow]; omega
    have k0 : c >>> 12 < 256 := by rw [Nat.shiftRight_eq_div_pow]; omega
    have c1 : (c >>> 6) &&& 0x3F < 256 := by rw [and_63]; omega
    have c0 : c &&& 0x3F < 256 := by rw [and_63]; omega
    simp [utf32_to_utf8, show ¬ c ≤ 127 by omega, show ¬ c ≤ 2047 by omega, h', k, toByte_or,
      k0, c0, c1, Nat.or_comm]
  · have k : (c >>> 18) &&& 0x07 = c >>> 18 := by
      rw [and_7, Nat.shiftRight_eq_div_pow]; omega
    have k0 : c >>> 18 < 256 := by rw [Nat.shiftRight_eq_div_pow]; omega
    have c2 : (c >>> 12) &&& 0x3F < 256 := by rw [and_63]; omega
    have c1 : (c >>> 6) &&& 0x3F < 256 := by rw [and_63]; omega
    have c0 : c &&& 0x3F < 256 := by rw [and_63]; omega
    simp [utf32_to_utf8, show ¬ c ≤ 127 by omega, show ¬ c ≤ 2047 by omega,
      show ¬ c ≤ 65535 by omega, h', k, toByte_or, k0, c0, c1, c2, Nat.or_comm]

theorem utf32_to_utf8_standard_bytes_witness :
    utf32_to_utf8 0x20AC false
      = .ok [0xE0 ||| (0x20AC >>> 12), 0x80 ||| ((0x20AC >>> 6) &&& 0x3F), 0x80 ||| (0x20AC &&& 0x3F)] :=
  (utf32_to_utf8_standard_bytes.1 0x20AC false).2.2.1 (by decide) (by decide)

set_option maxRecDepth 100000 in
/-- C5: for every byte `b` in 0..255, `utf8_codepoint_size b` is 1 when
`b < 0x80`, 2 when `0xC0 ≤ b ≤ 0xDF`, 3 when `0xE0 ≤ b ≤ 0xEF`, 4 when
`0xF0 ≤ b ≤ 0xF7` and 0 for every other value (`0x80..0xBF` and
`0xF8..0xFF`); the result is always one of 0, 1, 2, 3, 4. -/
theorem utf8_codepoint_size_table (b : Nat) (hb : b < 256) :
    (b < 0x80 → utf8_codepoint_size b = 1)
    ∧ (0xC0 ≤ b ∧ b ≤ 0xDF → utf8_codepoint_size b = 2)
    ∧ (0xE0 ≤ b ∧ b ≤ 0xEF → utf8_codepoint_size b = 3)
    ∧ (0xF0 ≤ b ∧ b ≤ 0xF7 → utf8_codepoint_size b = 4)
    ∧ ((0x80 ≤ b ∧ b ≤ 0xBF) ∨ 0xF8 ≤ b → utf8_codepoint_size b = 0)
    ∧ utf8_codepoint_size b ∈ [0, 1, 2, 3, 4] := by
  revert b
  decide

theorem utf8_codepoint_size_table_witness :
    (0xC3 < 0x80 → utf8_codepoint_size 0xC3 = 1)
    ∧ (0xC0 ≤ 0xC3 ∧ 0xC3 ≤ 0xDF → utf8_codepoint_size 0xC3 = 2)
    ∧ (0xE0 ≤ 0xC3 ∧ 0xC3 ≤ 0xEF → utf8_codepoint_size 0xC3 = 3)
    ∧ (0xF0 ≤ 0xC3 ∧ 0xC3 ≤ 0xF7 → utf8_codepoint_size 0xC3 = 4)
    ∧ ((0x80 ≤ 0xC3 ∧ 0xC3 ≤ 0xBF) ∨ 0xF8 ≤ 0xC3 → utf8_codepoint_size 0xC3 = 0)
    ∧ utf8_codepoint_size 0xC3 ∈ [0, 1, 2, 3, 4] :=
  utf8_codepoint_size_table 0xC3 (by decide)

/-- C6: for every value `c`, the single-codepoint encoder fails if and only
if `c > 0x10FFFF` and the flag is true, and the failure carries the message
"Invalid UTF32 codepoint."; when `c > 0x10FFFF` and the flag is false it
returns exactly the three bytes `EF BF BD`. -/
theorem utf32_to_utf8_failure (c : Nat) (e : Bool) :
    (∀ m, utf32_to_utf8 c e = .error m ↔
      (0x10FFFF < c ∧ e = true ∧ m = "Invalid UTF32 codepoint."))
    ∧ (0x10FFFF < c → e = false → utf32_to_utf8 c e = .ok [0xEF, 0xBF, 0xBD]) := by
  constructor
  · intro m
    unfold utf32_to_utf8
    split_ifs with h1 h2 h3 h4 h5
    · simp; omega
    · simp; omega
    · simp; omega
    · simp; omega
    · simp only [Except.error.injEq]
      constructor
      · intro h; exact ⟨by omega, h5, h.symm⟩
      · intro h; exact h.2.2.symm
    · simp [h5]
  · intro h he
    subst he
    simp [utf32_to_utf8, show ¬ c ≤ 127 by omega, show ¬ c ≤ 2047 by omega,
      show ¬ c ≤ 65535 by omega, show ¬ c ≤ 1114111 by omega]

theorem utf32_to_utf8_failure_witness :
    utf32_to_utf8 0x110000 false = .ok [0xEF, 0xBF, 0xBD] :=
  (utf32_to_utf8_failure 0x110000 false).2 (by decide) rfl

/-! ### The validity loop -/

theorem unitCheck_size_pos (str : List Nat) (p : Nat) (h : unitCheck str p = true) :
    1 ≤ utf8_codepoint_size (byteAt str p) := by
  rcases utf8_codepoint_size_cases (byteAt str p) with h0 | h0 | h0 | h0 | h0 <;>
    simp [unitCheck, h0] at h ⊢

theorem is_valid_utf8_loop_step (str : List Nat) (end_ fuel it : Nat) (hne : it ≠ end_) :
    is_valid_utf8_loop str end_ (fuel + 1) it =
      if it + utf8_codepoint_size (byteAt str it) > end_ then some false
      else if unitCheck str it then
        is_valid_utf8_loop str end_ fuel (it + utf8_codepoint_size (byteAt str it))
      else some false := by
  rcases utf8_codepoint_size_cases (byteAt str it) with h | h | h | h | h
  · simp [is_valid_utf8_loop, unitCheck, h, hne]
  all_goals
    simp only [is_valid_utf8_loop, unitCheck, h, hne]
    simp only [ne_eq, not_false_eq_true, ↓reduceIte, gt_iff_lt, ite_not, Bool.decide_and,
      Bool.and_eq_true, decide_eq_true_eq]
    split_ifs <;> first | rfl | tauto

/-- The validity loop started at index `it` does what a fresh validity loop
does on the bytes from `it` on. -/
theorem is_valid_utf8_loop_drop :
    ∀ (m : Nat) (str : List Nat) (end_ it fuel : Nat),
      it ≤ end_ → end_ - it ≤ m → end_ - it ≤ fuel →
      is_valid_utf8_loop str end_ fuel it =
        is_valid_utf8_loop (str.drop it) (end_ - it) (end_ - it) 0 := by
  intro m
  induction m with
  | zero =>
    intro str end_ it fuel h1 h2 _
    obtain rfl : it = end_ := by omega
    simp [is_valid_utf8_loop_at_end]
  | succ m ih =>
    intro str end_ it fuel h1 h2 h3
    by_cases hit : it = end_
    · subst hit
      simp [is_valid_utf8_loop_at_end]
    · obtain ⟨f, rfl⟩ : ∃ f, fuel = f + 1 := ⟨fuel - 1, by omega⟩
      obtain ⟨g, hg⟩ : ∃ g, end_ - it = g + 1 := ⟨end_ - it - 1, by omega⟩
      have h0 : (0 : Nat) ≠ end_ - it := by omega
      have hR : is_valid_utf8_loop (str.drop it) (end_ - it) (end_ - it) 0
          = is_valid_utf8_loop (str.drop it) (end_ - it) (g + 1) 0 := by rw [← hg]
      rw [is_valid_utf8_loop_step str end_ f it hit, hR,
        is_valid_utf8_loop_step _ (end_ - it) g 0 h0, unitCheck_drop, byteAt_drop, Nat.add_zero]
      have hcond : (0 + utf8_codepoint_size (byteAt str it) > end_ - it)
          ↔ (it + utf8_codepoint_size (byteAt str it) > end_) := by omega
      simp only [hcond]
      split_ifs with hgt hu
      · rfl
      · have hpos := unitCheck_size_pos str it hu
        rw [ih str end_ _ f (by omega) (by omega) (by omega),
          ih (str.drop it) (end_ - it) _ g (by omega) (by omega) (by omega)]
        simp [List.drop_drop, Nat.add_comm, Nat.sub_sub]
      · rfl

/-- One iteration of `is_valid_utf8`, at the level of the whole call. -/
theorem is_valid_utf8_cons (s : List Nat) (k : Nat) (hk : 0 < k) :
    is_valid_utf8 s 0 k =
      if utf8_codepoint_size (byteAt s 0) > k then some false
      else if unitCheck s 0 then
        is_valid_utf8 (s.drop (utf8_codepoint_size (byteAt s 0))) 0
          (k - utf8_codepoint_size (byteAt s 0))
      else some false := by
  obtain ⟨g, rfl⟩ : ∃ g, k = g + 1 := ⟨k - 1, by omega⟩
  simp only [is_valid_utf8, Nat.not_lt_zero, if_false, Nat.sub_zero]
  rw [is_valid_utf8_loop_step s (g + 1) g 0 (by omega), Nat.zero_add]
  split_ifs with hgt hu
  · rfl
  · have hpos := unitCheck_size_pos s 0 hu
    rw [is_valid_utf8_loop_drop (g + 1) s (g + 1) _ g (by omega) (by omega) (by omega)]
  · rfl

theorem is_valid_utf8_begin (str : List Nat) (begin end_ : Nat) (h : begin ≤ end_) :
    is_valid_utf8 str begin end_ = is_valid_utf8 (str.drop begin) 0 (end_ - begin) := by
  simp only [is_valid_utf8, Nat.not_lt_zero, if_false, Nat.sub_zero, if_neg (Nat.not_lt.mpr h)]
  rw [is_valid_utf8_loop_drop (end_ - begin) str end_ begin _ h (Nat.le_refl _) (Nat.le_refl _)]

/-! ### Malformed units -/

/-- On a string that starts with a lead byte followed by as many bytes as
its classification asks for, the iteration's test is the test of the bytes
that follow the lead byte. -/
theorem unitCheck_eq_all (b0 : Nat) (t rest : List Nat)
    (hsz : utf8_codepoint_size b0 = t.length + 1) :
    unitCheck (b0 :: t ++ rest) 0 = t.all isContinuation
      ∧ advance (byteAt (b0 :: t ++ rest) 0) = t.length + 1 := by
  have hlead := utf8_codepoint_size_lead b0
  rcases utf8_codepoint_size_cases b0 with h | h | h | h | h
  · omega
  · obtain rfl : t = [] := List.length_eq_zero.mp (by omega)
    simp [unitCheck, advance, byteAt, h, hlead.1 h]
  · rcases t with _ | ⟨b1, _ | ⟨b2, t⟩⟩ <;> simp at hsz <;> try omega
    simp [unitCheck, advance, byteAt, h, hlead.2.1 h, isContinuation]
  · rcases t with _ | ⟨b1, _ | ⟨b2, _ | ⟨b3, t⟩⟩⟩ <;> simp at hsz <;> try omega
    simp [unitCheck, advance, byteAt, h, hlead.2.2.1 h, isContinuation]
  · rcases t with _ | ⟨b1, _ | ⟨b2, _ | ⟨b3, _ | ⟨b4, t⟩⟩⟩⟩ <;> simp at hsz <;> try omega
    simp [unitCheck, advance, byteAt, h, hlead.2.2.2 h, isContinuation]

/-- With the flag false the string decoder always returns a codepoint
sequence. -/
theorem utf8_to_utf32_false_ok :
    ∀ (m : Nat) (s : List Nat), s.length ≤ m → ∃ r, utf8_to_utf32 s false = some (.ok r) := by
  intro m
  induction m with
  | zero =>
    intro s hs
    obtain rfl : s = [] := List.length_eq_zero.mp (by omega)
    exact ⟨[], rfl⟩
  | succ m ih =>
    intro s hs
    by_cases hnil : s = []
    · subst hnil; exact ⟨[], rfl⟩
    · have hpos := advance_pos (byteAt s 0)
      have hlen : 0 < s.length := List.length_pos.mpr hnil
      obtain ⟨r, hr⟩ := ih (s.drop (advance (byteAt s 0))) (by simp; omega)
      rw [utf8_to_utf32_cons s false hnil, hr]
      cases unitCheck s 0
      · exact ⟨_, rfl⟩
      · exact ⟨_, rfl⟩

/-- C8: with the flag false, a malformed unit whose lead byte classifies is
replaced by one U+FFFD and the whole classified length is skipped: for a lead
byte `b0` of classification `n` in `{2,3,4}`, `n - 1` following bytes `t` of
which at least one is not of the form `10xxxxxx`, and any `rest`, decoding
`b0 :: t ++ rest` gives U+FFFD followed by the decoding of `rest`; `C3 28`
decodes to exactly `[U+FFFD]`. -/
theorem utf8_to_utf32_malformed_unit :
    (∀ (b0 : Nat) (t rest : List Nat), 2 ≤ utf8_codepoint_size b0 →
      t.length + 1 = utf8_codepoint_size b0 → (∃ x ∈ t, isContinuation x = false) →
      ∃ r, utf8_to_utf32 rest false = some (.ok r)
        ∧ utf8_to_utf32 (b0 :: t ++ rest) false = some (.ok ([0xFFFD] ++ r)))
    ∧ utf8_to_utf32 [0xC3, 0x28] false = some (.ok [0xFFFD]) := by
  refine ⟨?_, by decide⟩
  intro b0 t rest _ hsz hbad
  obtain ⟨r, hr⟩ := utf8_to_utf32_false_ok rest.length rest (Nat.le_refl _)
  obtain ⟨hu, hadv⟩ := unitCheck_eq_all b0 t rest hsz.symm
  have hall : t.all isContinuation = false := by
    obtain ⟨x, hx, hxc⟩ := hbad
    rw [List.all_eq_false]
    exact ⟨x, hx, by simp [hxc]⟩
  refine ⟨r, hr, ?_⟩
  rw [utf8_to_utf32_cons _ false (by simp), hu, hall, hadv]
  have hdrop : List.drop (t.length + 1) (b0 :: t ++ rest) = rest := by simp
  rw [hdrop, hr]
  rfl

theorem utf8_to_utf32_malformed_unit_witness :
    ∃ r, utf8_to_utf32 [0x41, 0xC3, 0xB1] false = some (.ok r)
      ∧ utf8_to_utf32 (0xE2 :: [0x28, 0xA1] ++ [0x41, 0xC3, 0xB1]) false
          = some (.ok ([0xFFFD] ++ r)) :=
  utf8_to_utf32_malformed_unit.1 0xE2 [0x28, 0xA1] [0x41, 0xC3, 0xB1] (by decide) (by decide)
    ⟨0x28, by decide, by decide⟩

/-! ### Single code units -/

theorem utf8_to_utf32_unit (u : List Nat) (e : Bool) (hu : wellFormedUnit u = true) :
    utf8_to_utf32 u e = some (.ok [payload u]) := by
  have := utf8_to_utf32_unit_append u [] e hu
  rw [List.append_nil] at this
  rw [this]
  rfl

theorem is_valid_utf8_code_unit_eq (t : List Nat) :
    is_valid_utf8_code_unit t = some (wellFormedUnit t) := by
  rcases t with _ | ⟨b0, t⟩
  · simp [is_valid_utf8_code_unit, byteAt, utf8_codepoint_size, wellFormedUnit]
  · by_cases hsz : utf8_codepoint_size b0 = t.length + 1
    · have hv := is_valid_utf8_unit (b0 :: t) 0 (by simp [byteAt]; omega)
      have hb : byteAt (b0 :: t) 0 = b0 := rfl
      rw [hb, hsz, Nat.zero_add] at hv
      have hall := (unitCheck_eq_all b0 t [] hsz).1
      rw [List.append_nil] at hall
      simp [is_valid_utf8_code_unit, hb, hsz, hv, hall, wellFormedUnit]
    · simp [is_valid_utf8_code_unit, byteAt, hsz, wellFormedUnit]

theorem is_valid_utf8_of_wellFormedUnit (u : List Nat) (hu : wellFormedUnit u = true) :
    is_valid_utf8 u 0 u.length = some true := by
  have h := is_valid_utf8_code_unit_eq u
  rw [hu] at h
  unfold is_valid_utf8_code_unit at h
  split_ifs at h with hc
  · exact h
  · simp at h

theorem wellFormedUnit_cases (u : List Nat) (hu : wellFormedUnit u = true) :
    (∃ b0, u = [b0]) ∨ (∃ b0 b1, u = [b0, b1]) ∨ (∃ b0 b1 b2, u = [b0, b1, b2])
      ∨ (∃ b0 b1 b2 b3, u = [b0, b1, b2, b3]) := by
  rcases u with _ | ⟨b0, t⟩
  · simp [wellFormedUnit] at hu
  simp only [wellFormedUnit, Bool.and_eq_true, beq_iff_eq] at hu
  obtain ⟨hsz, -⟩ := hu
  rcases utf8_codepoint_size_cases b0 with h | h | h | h | h <;> rw [h] at hsz
  · omega
  · rcases t with _ | ⟨b1, t⟩ <;> simp at hsz
    exact Or.inl ⟨b0, rfl⟩
  · rcases t with _ | ⟨b1, _ | ⟨b2, t⟩⟩ <;> simp at hsz
    exact Or.inr (Or.inl ⟨b0, b1, rfl⟩)
  · rcases t with _ | ⟨b1, _ | ⟨b2, _ | ⟨b3, t⟩⟩⟩ <;> simp at hsz
    exact Or.inr (Or.inr (Or.inl ⟨b0, b1, b2, rfl⟩))
  · rcases t with _ | ⟨b1, _ | ⟨b2, _ | ⟨b3, _ | ⟨b4, t⟩⟩⟩⟩ <;> simp at hsz
    exact Or.inr (Or.inr (Or.inr ⟨b0, b1, b2, b3, rfl⟩))

/-- C9, as the code has it: an overlong code unit is decoded like any other
well-formed unit. With either flag the string decoder returns its payload
value and `is_valid_utf8` returns true on it; `C0 80` and `E0 80 80` decode
to `[U+0000]`. -/
theorem overlong_unit_accepted :
    (∀ (u : List Nat) (e : Bool), isOverlong u = true →
      utf8_to_utf32 u e = some (.ok [payload u]) ∧ is_valid_utf8 u 0 u.length = some true)
    ∧ (∀ e, utf8_to_utf32 [0xC0, 0x80] e = some (.ok [0]))
    ∧ (∀ e, utf8_to_utf32 [0xE0, 0x80, 0x80] e = some (.ok [0])) := by
  refine ⟨?_, by decide, by decide⟩
  intro u e h
  simp only [isOverlong, Bool.and_eq_true] at h
  exact ⟨utf8_to_utf32_unit u e h.1, is_valid_utf8_of_wellFormedUnit u h.1⟩

theorem overlong_unit_accepted_witness :
    utf8_to_utf32 [0xF0, 0x80, 0x80, 0xAF] true = some (.ok [payload [0xF0, 0x80, 0x80, 0xAF]])
      ∧ is_valid_utf8 [0xF0, 0x80, 0x80, 0xAF] 0 [0xF0, 0x80, 0x80, 0xAF].length = some true :=
  overlong_unit_accepted.1 [0xF0, 0x80, 0x80, 0xAF] true (by decide)

/-- C9 as stated fails at the overlong unit `C0 80`: the string decoder with
the flag true returns `[U+0000]` instead of failing, with the flag false it
returns `[U+0000]` instead of `[U+FFFD]`, and `is_valid_utf8` returns true. -/
theorem overlong_unit_rejected_counterexample :
    isOverlong [0xC0, 0x80] = true
      ∧ utf8_to_utf32 [0xC0, 0x80] true = some (.ok [0])
      ∧ utf8_to_utf32 [0xC0, 0x80] false = some (.ok [0])
      ∧ is_valid_utf8 [0xC0, 0x80] 0 2 = some true
      ∧ ¬ (∀ u : List Nat, isOverlong u = true →
            utf8_to_utf32 u true = some (.error "Bad UTF-8 sequence.")
              ∧ utf8_to_utf32 u false = some (.ok [0xFFFD])
              ∧ is_valid_utf8 u 0 u.length = some false) := by
  refine ⟨by decide, by decide, by decide, by decide, fun h => ?_⟩
  have h1 := (h [0xC0, 0x80] (by decide)).2.2
  exact absurd h1 (by decide)

/-! ### Encoded length -/

theorem utf32_to_utf8_length (c : Nat) (e : Bool) (hc : c ≤ 0x10FFFF) :
    ∃ s, utf32_to_utf8 c e = .ok s
      ∧ s.length = if c ≤ 0x7F then 1 else if c ≤ 0x7FF then 2 else if c ≤ 0xFFFF then 3 else 4 := by
  unfold utf32_to_utf8
  split_ifs with h1 h2 h3 <;> exact ⟨_, rfl, rfl⟩

theorem payload_lt_of_length (u : List Nat) :
    (u.length = 1 → payload u < 0x80) ∧ (u.length = 2 → payload u < 0x800)
      ∧ (u.length = 3 → payload u < 0x10000) := by
  obtain ⟨p1, p2, p3, -⟩ := payload_eq_arith
  refine ⟨fun h => ?_, fun h => ?_, fun h => ?_⟩
  · obtain ⟨b0, rfl⟩ := List.length_eq_one.mp h
    rw [p1]; omega
  · obtain ⟨b0, b1, rfl⟩ := List.length_eq_two.mp h
    rw [p2]; omega
  · obtain ⟨b0, b1, b2, rfl⟩ := List.length_eq_three.mp h
    rw [p3]; omega

/-- C10: encoding is minimal-length. For every codepoint `c ≤ 0x10FFFF` and
every byte string `t` that `is_valid_utf8_code_unit` accepts and that decodes
to `[c]`, the encoding of `c` is no longer than `t`; and the encoded length is
1 exactly when `c ≤ 0x7F`, 2 exactly when `0x80 ≤ c ≤ 0x7FF`, 3 exactly when
`0x800 ≤ c ≤ 0xFFFF` and 4 exactly when `0x10000 ≤ c ≤ 0x10FFFF`. -/
theorem utf32_to_utf8_minimal :
    (∀ (c : Nat) (t : List Nat) (e1 e2 : Bool), c ≤ 0x10FFFF →
      is_valid_utf8_code_unit t = some true → utf8_to_utf32 t e2 = some (.ok [c]) →
      ∃ s, utf32_to_utf8 c e1 = .ok s ∧ s.length ≤ t.length)
    ∧ (∀ (c : Nat) (e : Bool), c ≤ 0x10FFFF →
      ∃ s, utf32_to_utf8 c e = .ok s
        ∧ (s.length = 1 ↔ c ≤ 0x7F) ∧ (s.length = 2 ↔ 0x80 ≤ c ∧ c ≤ 0x7FF)
        ∧ (s.length = 3 ↔ 0x800 ≤ c ∧ c ≤ 0xFFFF)
        ∧ (s.length = 4 ↔ 0x10000 ≤ c ∧ c ≤ 0x10FFFF)) := by
  constructor
  · intro c t e1 e2 hc hv hd
    rw [is_valid_utf8_code_unit_eq] at hv
    have hwf : wellFormedUnit t = true := by simpa using hv
    rw [utf8_to_utf32_unit t e2 hwf] at hd
    have hp : payload t = c := by simpa using hd
    obtain ⟨s, hs, hlen⟩ := utf32_to_utf8_length c e1 hc
    refine ⟨s, hs, ?_⟩
    obtain ⟨q1, q2, q3⟩ := payload_lt_of_length t
    rw [hp] at q1 q2 q3
    rw [hlen]
    rcases wellFormedUnit_cases t hwf with ⟨b0, rfl⟩ | ⟨b0, b1, rfl⟩ | ⟨b0, b1, b2, rfl⟩
      | ⟨b0, b1, b2, b3, rfl⟩
    · have := q1 rfl
      simp only [List.length_cons, List.length_nil]
      split_ifs <;> omega
    · have := q2 rfl
      simp only [List.length_cons, List.length_nil]
      split_ifs <;> omega
    · have := q3 rfl
      simp only [List.length_cons, List.length_nil]
      split_ifs <;> omega
    · simp only [List.length_cons, List.length_nil]
      split_ifs <;> omega
  · intro c e hc
    obtain ⟨s, hs, hlen⟩ := utf32_to_utf8_length c e hc
    refine ⟨s, hs, ?_⟩
    rw [hlen]
    split_ifs <;> omega

theorem utf32_to_utf8_minimal_witness :
    ∃ s, utf32_to_utf8 0x20AC true = .ok s ∧ s.length ≤ [0xE2, 0x82, 0xAC].length :=
  utf32_to_utf8_minimal.1 0x20AC [0xE2, 0x82, 0xAC] true false (by decide) (by decide) (by decide)

/-! ### The decoder against the validity check -/

theorem lt_length_of_continuation (str : List Nat) (i : Nat)
    (h : byteAt str i &&& 192 = 128) : i < str.length := by
  by_contra hlt
  have h0 : byteAt str i = 0 := by
    simp [byteAt, List.getD_eq_getElem?_getD, List.getElem?_eq_none (Nat.not_lt.mp hlt)]
  rw [h0] at h
  simp at h

/-- A unit that passes the iteration's test lies inside the string: a read
of the terminating NUL never passes for a continuation byte. -/
theorem unitCheck_bound (str : List Nat) (p : Nat) (hp : p < str.length)
    (h : unitCheck str p = true) : p + utf8_codepoint_size (byteAt str p) ≤ str.length := by
  rcases utf8_codepoint_size_cases (byteAt str p) with h0 | h0 | h0 | h0 | h0 <;>
    simp only [unitCheck, h0, Bool.false_eq_true, decide_eq_true_eq] at h ⊢
  · omega
  · have := lt_length_of_continuation str _ h.2
    omega
  · have := lt_length_of_continuation str _ h.2.2
    omega
  · have := lt_length_of_continuation str _ h.2.2.2
    omega

theorem advance_of_unitCheck (str : List Nat) (p : Nat) (h : unitCheck str p = true) :
    advance (byteAt str p) = utf8_codepoint_size (byteAt str p) := by
  have := unitCheck_size_pos str p h
  unfold advance
  split_ifs <;> omega

/-- The strict decoder and the validity check agree on every string. -/
theorem utf8_to_utf32_true_cases :
    ∀ (m : Nat) (s : List Nat), s.length ≤ m →
      (is_valid_utf8 s 0 s.length = some true
        ∧ ∃ r, utf8_to_utf32 s true = some (.ok r) ∧ utf8_to_utf32 s false = some (.ok r))
      ∨ (is_valid_utf8 s 0 s.length = some false
        ∧ utf8_to_utf32 s true = some (.error "Bad UTF-8 sequence.")) := by
  intro m
  induction m with
  | zero =>
    intro s hs
    obtain rfl : s = [] := List.length_eq_zero.mp (by omega)
    exact Or.inl ⟨rfl, [], rfl, rfl⟩
  | succ m ih =>
    intro s hs
    by_cases hnil : s = []
    · subst hnil; exact Or.inl ⟨rfl, [], rfl, rfl⟩
    · have hlen : 0 < s.length := List.length_pos.mpr hnil
      rw [is_valid_utf8_cons s s.length hlen, utf8_to_utf32_cons s true hnil,
        utf8_to_utf32_cons s false hnil]
      cases hu : unitCheck s 0
      · right
        simp
      · have hadv := advance_of_unitCheck s 0 hu
        have hpos := unitCheck_size_pos s 0 hu
        have hbound := unitCheck_bound s 0 hlen hu
        rw [hadv]
        have hl : s.length - utf8_codepoint_size (byteAt s 0)
            = (s.drop (utf8_codepoint_size (byteAt s 0))).length := by simp
        rw [if_neg (by omega), hl]
        simp only [if_true]
        rcases ih (s.drop (utf8_codepoint_size (byteAt s 0))) (by simp; omega) with
          ⟨hv, r, h1, h2⟩ | ⟨hv, h1⟩
        · left
          rw [hv, h1, h2]
          exact ⟨rfl, _, rfl, rfl⟩
        · right
          rw [hv, h1]
          exact ⟨rfl, rfl⟩

/-- C7: for every byte string `s`, the string decoder called with the flag
true fails if and only if `is_valid_utf8` over the whole of `s` returns false,
the failure carries the message "Bad UTF-8 sequence.", and when it does not
fail it returns the same codepoint sequence as the call with the flag
false. -/
theorem utf8_to_utf32_fails_iff_invalid (s : List Nat) :
    ((∃ msg, utf8_to_utf32 s true = some (.error msg)) ↔ is_valid_utf8 s 0 s.length = some false)
    ∧ (∀ msg, utf8_to_utf32 s true = some (.error msg) → msg = "Bad UTF-8 sequence.")
    ∧ ((∃ r, utf8_to_utf32 s true = some (.ok r)) ↔ is_valid_utf8 s 0 s.length = some true)
    ∧ (∀ r, utf8_to_utf32 s true = some (.ok r) → utf8_to_utf32 s false = some (.ok r)) := by
  rcases utf8_to_utf32_true_cases s.length s (Nat.le_refl _) with ⟨hv, r, h1, h2⟩ | ⟨hv, h1⟩
  · rw [hv, h1]
    refine ⟨by simp, by simp, by simp, ?_⟩
    intro r' hr'
    rw [h2]
    simpa using hr'
  · rw [hv, h1]
    refine ⟨by simp, ?_, by simp, by simp⟩
    intro msg hmsg
    simpa using hmsg.symm

theorem utf8_to_utf32_fails_iff_invalid_witness :
    ∃ msg, utf8_to_utf32 [0x41, 0xE2, 0x82] true = some (.error msg) :=
  (utf8_to_utf32_fails_iff_invalid [0x41, 0xE2, 0x82]).1.mpr (by decide)

/-! ### Valid ranges as concatenations of code units -/

/-- A decomposition of the first `k` bytes of `s` into well-formed units
starts with the unit of the classified length, which passes the test. -/
theorem units_head (s : List Nat) (k : Nat) (hk : 0 < k) (hks : k ≤ s.length)
    (units : List (List Nat)) (hwf : ∀ u ∈ units, wellFormedUnit u = true)
    (hflat : units.flatten = s.take k) :
    utf8_codepoint_size (byteAt s 0) ≤ k ∧ unitCheck s 0 = true
      ∧ ∃ us : List (List Nat), (∀ u ∈ us, wellFormedUnit u = true)
          ∧ us.flatten = (s.drop (utf8_codepoint_size (byteAt s 0))).take
              (k - utf8_codepoint_size (byteAt s 0)) := by
  rcases units with _ | ⟨u, us⟩
  · have : (s.take k).length = 0 := by rw [← hflat]; rfl
    rw [List.length_take_of_le hks] at this
    omega
  have hu := hwf u (List.mem_cons_self _ _)
  rw [List.flatten_cons] at hflat
  have hs : s = u ++ (us.flatten ++ s.drop k) := by
    rw [← List.append_assoc, hflat, List.take_append_drop]
  obtain ⟨h1, -, h3⟩ := wellFormedUnit_head u (us.flatten ++ s.drop k) hu
  rw [← hs] at h1 h3
  have hadv := advance_of_unitCheck s 0 h1
  rw [h3] at hadv
  have hle : u.length ≤ k := by
    have : (u ++ us.flatten).length = k := by rw [hflat, List.length_take_of_le hks]
    rw [List.length_append] at this
    omega
  refine ⟨by omega, h1, us, fun v hv => hwf v (List.mem_cons_of_mem _ hv), ?_⟩
  rw [← hadv, ← List.drop_take, ← hflat, List.drop_left]

/-- The bytes of a unit that passes the iteration's test form a well-formed
code unit. -/
theorem wellFormedUnit_take (s : List Nat) (hlen : utf8_codepoint_size (byteAt s 0) ≤ s.length)
    (h : unitCheck s 0 = true) :
    wellFormedUnit (s.take (utf8_codepoint_size (byteAt s 0))) = true := by
  have hpos := unitCheck_size_pos s 0 h
  rcases s with _ | ⟨b0, s⟩
  · simp at hlen; omega
  have hb : byteAt (b0 :: s) 0 = b0 := rfl
  rw [hb] at hlen hpos ⊢
  obtain ⟨n, hn⟩ : ∃ n, utf8_codepoint_size b0 = n + 1 := ⟨utf8_codepoint_size b0 - 1, by omega⟩
  have hns : n ≤ s.length := by simp at hlen; omega
  have hsz : utf8_codepoint_size b0 = (s.take n).length + 1 := by
    rw [List.length_take_of_le hns, hn]
  have hall := (unitCheck_eq_all b0 (s.take n) (s.drop n) hsz).1
  rw [List.cons_append, List.take_append_drop, h] at hall
  rw [hn, List.take_succ_cons]
  simp only [wellFormedUnit, Bool.and_eq_true, beq_iff_eq]
  exact ⟨hsz, hall.symm⟩

theorem is_valid_utf8_units :
    ∀ (m : Nat) (s : List Nat) (k : Nat), k ≤ m → k ≤ s.length →
      (is_valid_utf8 s 0 k = some true
        ∧ ∃ units : List (List Nat),
            (∀ u ∈ units, wellFormedUnit u = true) ∧ units.flatten = s.take k)
      ∨ (is_valid_utf8 s 0 k = some false
        ∧ ¬ ∃ units : List (List Nat),
            (∀ u ∈ units, wellFormedUnit u = true) ∧ units.flatten = s.take k) := by
  intro m
  induction m with
  | zero =>
    intro s k hk _
    obtain rfl : k = 0 := by omega
    exact Or.inl ⟨by simp [is_valid_utf8, is_valid_utf8_loop], [], by simp, by simp⟩
  | succ m ih =>
    intro s k hk hks
    by_cases hk0 : k = 0
    · subst hk0
      exact Or.inl ⟨by simp [is_valid_utf8, is_valid_utf8_loop], [], by simp, by simp⟩
    have hkpos : 0 < k := Nat.pos_of_ne_zero hk0
    rw [is_valid_utf8_cons s k hkpos]
    by_cases hgt : utf8_codepoint_size (byteAt s 0) > k
    · rw [if_pos hgt]
      refine Or.inr ⟨rfl, ?_⟩
      rintro ⟨units, hwf, hflat⟩
      have := (units_head s k hkpos hks units hwf hflat).1
      omega
    rw [if_neg hgt]
    cases hu : unitCheck s 0
    · refine Or.inr ⟨rfl, ?_⟩
      rintro ⟨units, hwf, hflat⟩
      have := (units_head s k hkpos hks units hwf hflat).2.1
      rw [hu] at this
      exact Bool.false_ne_true this
    · have hpos := unitCheck_size_pos s 0 hu
      simp only [if_true]
      rcases ih (s.drop (utf8_codepoint_size (byteAt s 0))) (k - utf8_codepoint_size (byteAt s 0))
          (by omega) (by simp; omega) with ⟨hv, us, hwf, hflat⟩ | ⟨hv, hno⟩
      · refine Or.inl ⟨hv, s.take (utf8_codepoint_size (byteAt s 0)) :: us, ?_, ?_⟩
        · intro u hmem
          rcases List.mem_cons.mp hmem with rfl | hmem
          · exact wellFormedUnit_take s (by omega) hu
          · exact hwf u hmem
        · rw [List.flatten_cons, hflat, ← List.take_add]
          congr 1
          omega
      · refine Or.inr ⟨hv, ?_⟩
        rintro ⟨units, hwf, hflat⟩
        exact hno (units_head s k hkpos hks units hwf hflat).2.2

theorem is_valid_utf8_unit_append (u r : List Nat) (hu : wellFormedUnit u = true) :
    is_valid_utf8 (u ++ r) 0 (u ++ r).length = is_valid_utf8 r 0 r.length := by
  obtain ⟨h1, -, h3⟩ := wellFormedUnit_head u r hu
  have hsz := advance_of_unitCheck (u ++ r) 0 h1
  rw [h3] at hsz
  have hpos : 0 < (u ++ r).length := by
    have := List.length_pos.mpr (wellFormedUnit_ne_nil u hu)
    rw [List.length_append]; omega
  rw [is_valid_utf8_cons _ _ hpos, h1, ← hsz, if_neg (by rw [List.length_append]; omega)]
  simp

theorem is_valid_utf8_units_append (units : List (List Nat)) (r : List Nat)
    (hwf : ∀ u ∈ units, wellFormedUnit u = true) :
    is_valid_utf8 (units.flatten ++ r) 0 (units.flatten ++ r).length
      = is_valid_utf8 r 0 r.length := by
  induction units with
  | nil => rfl
  | cons u us ih =>
    rw [List.flatten_cons, List.append_assoc,
      is_valid_utf8_unit_append u _ (hwf u (List.mem_cons_self _ _)),
      ih (fun v hv => hwf v (List.mem_cons_of_mem _ hv))]

/-- A range that starts with a bad unit is invalid, whatever follows. -/
theorem is_valid_utf8_bad_unit (b0 : Nat) (rest : List Nat)
    (hbad : utf8_codepoint_size b0 = 0 ∨ rest.length + 1 < utf8_codepoint_size b0
      ∨ ∃ x ∈ rest.take (utf8_codepoint_size b0 - 1), isContinuation x = false) :
    is_valid_utf8 (b0 :: rest) 0 (b0 :: rest).length = some false := by
  have hb : byteAt (b0 :: rest) 0 = b0 := rfl
  rw [is_valid_utf8_cons _ _ (by simp), hb]
  by_cases hgt : utf8_codepoint_size b0 > (b0 :: rest).length
  · rw [if_pos hgt]
  rw [if_neg hgt]
  have hlen : utf8_codepoint_size b0 ≤ rest.length + 1 := by simpa using hgt
  have hu : unitCheck (b0 :: rest) 0 = false := by
    rcases hbad with h0 | hlt | ⟨x, hx, hxc⟩
    · simp [unitCheck, hb, h0]
    · omega
    · have hn : utf8_codepoint_size b0 - 1 ≤ rest.length := by omega
      have hpos : 1 ≤ utf8_codepoint_size b0 := by
        by_contra hc
        have : utf8_codepoint_size b0 - 1 = 0 := by omega
        rw [this] at hx
        simp at hx
      have hsz : utf8_codepoint_size b0
          = (rest.take (utf8_codepoint_size b0 - 1)).length + 1 := by
        rw [List.length_take_of_le hn]; omega
      have hall := (unitCheck_eq_all b0 (rest.take (utf8_codepoint_size b0 - 1))
        (rest.drop (utf8_codepoint_size b0 - 1)) hsz).1
      rw [List.cons_append, List.take_append_drop] at hall
      rw [hall, List.all_eq_false]
      exact ⟨x, hx, by simp [hxc]⟩
  rw [hu]
  rfl

/-- C4: for every byte range `[begin, end_)` of a string, `is_valid_utf8`
returns true if and only if the range is a concatenation of zero or more code
units, each a lead byte of classification `n` in `{1,2,3,4}` followed, inside
the range, by exactly `n - 1` bytes of the form `10xxxxxx`, and false
otherwise; after any number of such units it returns false as soon as a lead
byte classifies as 0, fewer than `n` bytes remain, or one of the `n - 1` bytes
after the lead byte has the wrong pattern, whatever follows. It is false for
`A0 A1`, `C3 28`, `E2 28 A1`, `E2 82 28`, a 3-byte unit truncated to 2 bytes,
`F0 28 8C BC` and `F0 90 28 BC`, and true for the empty range, `'a'`,
`C3 B1`, `E2 82 A1` and `F0 90 8C BC`. -/
theorem is_valid_utf8_iff_units :
    (∀ (str : List Nat) (begin end_ : Nat), end_ ≤ str.length →
      (is_valid_utf8 str begin end_ = some true ∨ is_valid_utf8 str begin end_ = some false)
      ∧ (is_valid_utf8 str begin end_ = some true ↔
          begin ≤ end_ ∧ ∃ units : List (List Nat),
            (∀ u ∈ units, wellFormedUnit u = true)
              ∧ units.flatten = (str.drop begin).take (end_ - begin)))
    ∧ (∀ (units : List (List Nat)) (b0 : Nat) (rest : List Nat),
        (∀ u ∈ units, wellFormedUnit u = true) →
        (utf8_codepoint_size b0 = 0 ∨ rest.length + 1 < utf8_codepoint_size b0
          ∨ ∃ x ∈ rest.take (utf8_codepoint_size b0 - 1), isContinuation x = false) →
        is_valid_utf8 (units.flatten ++ b0 :: rest) 0 (units.flatten ++ b0 :: rest).length
          = some false)
    ∧ is_valid_utf8 [0xA0, 0xA1] 0 2 = some false
    ∧ is_valid_utf8 [0xC3, 0x28] 0 2 = some false
    ∧ is_valid_utf8 [0xE2, 0x28, 0xA1] 0 3 = some false
    ∧ is_valid_utf8 [0xE2, 0x82, 0x28] 0 3 = some false
    ∧ is_valid_utf8 [0xE2, 0x82] 0 2 = some false
    ∧ is_valid_utf8 [0xE2, 0x82, 0xA1] 0 2 = some false
    ∧ is_valid_utf8 [0xF0, 0x28, 0x8C, 0xBC] 0 4 = some false
    ∧ is_valid_utf8 [0xF0, 0x90, 0x28, 0xBC] 0 4 = some false
    ∧ is_valid_utf8 [] 0 0 = some true
    ∧ is_valid_utf8 [0x61] 0 1 = some true
    ∧ is_valid_utf8 [0xC3, 0xB1] 0 2 = some true
    ∧ is_valid_utf8 [0xE2, 0x82, 0xA1] 0 3 = some true
    ∧ is_valid_utf8 [0xF0, 0x90, 0x8C, 0xBC] 0 4 = some true := by
  refine ⟨?_, ?_, by decide, by decide, by decide, by decide, by decide, by decide, by decide,
    by decide, by decide, by decide, by decide, by decide, by decide⟩
  · intro str begin end_ hend
    by_cases hbe : begin ≤ end_
    · rw [is_valid_utf8_begin str begin end_ hbe]
      rcases is_valid_utf8_units (end_ - begin) (str.drop begin) (end_ - begin) (Nat.le_refl _)
          (by simp; omega) with ⟨hv, hex⟩ | ⟨hv, hno⟩
      · rw [hv]
        exact ⟨Or.inl rfl, fun _ => ⟨hbe, hex⟩, fun _ => rfl⟩
      · rw [hv]
        exact ⟨Or.inr rfl, fun h => by simp at h, fun h => absurd h.2 hno⟩
    · have hv : is_valid_utf8 str begin end_ = some false := by
        simp [is_valid_utf8, Nat.lt_of_not_le hbe]
      rw [hv]
      exact ⟨Or.inr rfl, fun h => by simp at h, fun h => absurd h.1 hbe⟩
  · intro units b0 rest hwf hbad
    rw [is_valid_utf8_units_append units _ hwf]
    exact is_valid_utf8_bad_unit b0 rest hbad

theorem is_valid_utf8_iff_units_witness :
    is_valid_utf8 [0x41, 0xC3, 0xB1, 0xE2, 0x82, 0xA1, 0x42] 1 6 = some true :=
  ((is_valid_utf8_iff_units.1 [0x41, 0xC3, 0xB1, 0xE2, 0x82, 0xA1, 0x42] 1 6 (by decide)).2).mpr
    ⟨by decide, [[0xC3, 0xB1], [0xE2, 0x82, 0xA1]], by decide, by decide⟩

/-! ### The string encoder -/

theorem utf32_to_utf8_cases (c : Nat) (f : Bool) :
    (0x10FFFF < c ∧ f = true ∧ utf32_to_utf8 c f = .error "Invalid UTF32 codepoint.")
    ∨ (¬ (f = true ∧ 0x10FFFF < c)
        ∧ ∃ p, utf32_to_utf8 c f = .ok p ∧ (0x10FFFF < c → p = [0xEF, 0xBF, 0xBD])) := by
  unfold utf32_to_utf8
  split_ifs with h1 h2 h3 h4 h5
  · exact Or.inr ⟨by omega, _, rfl, by omega⟩
  · exact Or.inr ⟨by omega, _, rfl, by omega⟩
  · exact Or.inr ⟨by omega, _, rfl, by omega⟩
  · exact Or.inr ⟨by omega, _, rfl, by omega⟩
  · exact Or.inl ⟨by omega, h5, rfl⟩
  · exact Or.inr ⟨by simp [h5], _, rfl, fun _ => rfl⟩

theorem utf32_to_utf8_string_loop_cases (f : Bool) :
    ∀ (cs ret : List Nat),
      ((f = true ∧ ∃ c ∈ cs, 0x10FFFF < c)
        ∧ utf32_to_utf8_string_loop f cs ret = .error "Invalid UTF32 codepoint.")
      ∨ (¬ (f = true ∧ ∃ c ∈ cs, 0x10FFFF < c)
        ∧ ∃ parts : List (List Nat), List.Forall₂ (encodesTo f) cs parts
            ∧ utf32_to_utf8_string_loop f cs ret = .ok (ret ++ parts.flatten)) := by
  intro cs
  induction cs with
  | nil =>
    intro ret
    exact Or.inr ⟨by simp, [], List.Forall₂.nil, by simp [utf32_to_utf8_string_loop]⟩
  | cons c cs ih =>
    intro ret
    rcases utf32_to_utf8_cases c f with ⟨hc, hf, he⟩ | ⟨hno, p, hp, hrep⟩
    · exact Or.inl ⟨⟨hf, c, List.mem_cons_self _ _, hc⟩, by simp [utf32_to_utf8_string_loop, he]⟩
    · rcases ih (ret ++ p) with ⟨⟨hf, d, hd, hdc⟩, he⟩ | ⟨hno', parts, hparts, hok⟩
      · exact Or.inl ⟨⟨hf, d, List.mem_cons_of_mem _ hd, hdc⟩,
          by simp [utf32_to_utf8_string_loop, hp, he]⟩
      · refine Or.inr ⟨?_, p :: parts, List.Forall₂.cons ⟨hp, hrep⟩ hparts, ?_⟩
        · rintro ⟨hf, d, hd, hdc⟩
          rcases List.mem_cons.mp hd with rfl | hd
          · exact hno ⟨hf, hdc⟩
          · exact hno' ⟨hf, d, hd, hdc⟩
        · simp [utf32_to_utf8_string_loop, hp, hok]

/-- C11: for every codepoint sequence `cs` and flag `f`, the string encoder
fails if and only if `f` is true and some element of `cs` is above `0x10FFFF`
(with the message "Invalid UTF32 codepoint."); otherwise its result is the
concatenation, in order, of what the single-codepoint encoder returns with
`f` for each element, `EF BF BD` for each out-of-range one; the empty sequence
encodes to the empty byte string. -/
theorem utf32_to_utf8_string_concat (cs : List Nat) (f : Bool) :
    (∀ msg, utf32_to_utf8_string cs f = .error msg ↔
      (f = true ∧ (∃ c ∈ cs, 0x10FFFF < c) ∧ msg = "Invalid UTF32 codepoint."))
    ∧ (¬ (f = true ∧ ∃ c ∈ cs, 0x10FFFF < c) →
        ∃ parts : List (List Nat), List.Forall₂ (encodesTo f) cs parts
          ∧ utf32_to_utf8_string cs f = .ok parts.flatten)
    ∧ utf32_to_utf8_string [] f = .ok [] := by
  refine ⟨?_, ?_, rfl⟩
  · intro msg
    rcases utf32_to_utf8_string_loop_cases f cs [] with ⟨hbad, he⟩ | ⟨hno, parts, -, hok⟩
    · rw [utf32_to_utf8_string, he]
      constructor
      · intro h
        exact ⟨hbad.1, hbad.2, by simpa using h.symm⟩
      · intro h
        rw [h.2.2]
    · rw [utf32_to_utf8_string, hok]
      constructor
      · intro h; simp at h
      · intro h; exact absurd ⟨h.1, h.2.1⟩ hno
  · intro hno
    rcases utf32_to_utf8_string_loop_cases f cs [] with ⟨hbad, -⟩ | ⟨-, parts, hparts, hok⟩
    · exact absurd hbad hno
    · exact ⟨parts, hparts, by rw [utf32_to_utf8_string, hok, List.nil_append]⟩

theorem utf32_to_utf8_string_concat_witness :
    ∃ parts : List (List Nat), List.Forall₂ (encodesTo false) [0x41, 0x110000, 0x20AC] parts
      ∧ utf32_to_utf8_string [0x41, 0x110000, 0x20AC] false = .ok parts.flatten :=
  (utf32_to_utf8_string_concat [0x41, 0x110000, 0x20AC] false).2.1 (by simp)

/-! ### Exactly one code unit -/

theorem utf8_codepoint_size_le (b : Nat) : utf8_codepoint_size b ≤ 4 := by
  rcases utf8_codepoint_size_cases b with h | h | h | h | h <;> omega

theorem wellFormedUnit_length (u : List Nat) (hu : wellFormedUnit u = true) :
    u.length = utf8_codepoint_size (byteAt u 0) := by
  rcases u with _ | ⟨b0, t⟩
  · simp [wellFormedUnit] at hu
  · simp only [wellFormedUnit, Bool.and_eq_true, beq_iff_eq] at hu
    simp [byteAt, hu.1]

/-- C12: `is_valid_utf8_code_unit s` is true if and only if `s` is exactly
one code unit: `s` is non-empty, its length equals `utf8_codepoint_size` of
its first byte, and `is_valid_utf8` holds on the whole of `s`. It is false for
the empty string, for every string of 5 or more bytes, and for every string
that holds two or more code units. -/
theorem is_valid_utf8_code_unit_iff :
    (∀ s : List Nat,
      (is_valid_utf8_code_unit s = some true ∨ is_valid_utf8_code_unit s = some false)
      ∧ (is_valid_utf8_code_unit s = some true ↔
          (s ≠ [] ∧ s.length = utf8_codepoint_size (byteAt s 0)
            ∧ is_valid_utf8 s 0 s.length = some true)))
    ∧ is_valid_utf8_code_unit [] = some false
    ∧ (∀ s : List Nat, 5 ≤ s.length → is_valid_utf8_code_unit s = some false)
    ∧ (∀ units : List (List Nat), 2 ≤ units.length →
        (∀ u ∈ units, wellFormedUnit u = true) →
        is_valid_utf8_code_unit units.flatten = some false) := by
  refine ⟨?_, by decide, ?_, ?_⟩
  · intro s
    constructor
    · rw [is_valid_utf8_code_unit_eq]
      cases wellFormedUnit s <;> simp
    · constructor
      · intro h
        rw [is_valid_utf8_code_unit_eq] at h
        have hwf : wellFormedUnit s = true := by simpa using h
        exact ⟨wellFormedUnit_ne_nil s hwf, wellFormedUnit_length s hwf,
          is_valid_utf8_of_wellFormedUnit s hwf⟩
      · rintro ⟨-, hlen, hv⟩
        simp [is_valid_utf8_code_unit, hlen.symm, hv]
  · intro s hs
    rw [is_valid_utf8_code_unit_eq]
    cases h : wellFormedUnit s
    · rfl
    · have := wellFormedUnit_length s h
      have := utf8_codepoint_size_le (byteAt s 0)
      omega
  · intro units hlen hwf
    rw [is_valid_utf8_code_unit_eq]
    cases h : wellFormedUnit units.flatten
    · rfl
    · exfalso
      rcases units with _ | ⟨u1, _ | ⟨u2, us⟩⟩
      · simp at hlen
      · simp at hlen
      · have h1 := hwf u1 (by simp)
        have h2 := List.length_pos.mpr (wellFormedUnit_ne_nil u2 (hwf u2 (by simp)))
        have hl1 := wellFormedUnit_length u1 h1
        have hl := wellFormedUnit_length _ h
        have hb : byteAt (u1 :: u2 :: us).flatten 0 = byteAt u1 0 := by
          rcases u1 with _ | ⟨b0, t⟩
          · simp [wellFormedUnit] at h1
          · simp [byteAt]
        rw [hb, ← hl1] at hl
        simp only [List.flatten_cons, List.length_append] at hl
        omega

theorem is_valid_utf8_code_unit_iff_witness :
    is_valid_utf8_code_unit [[0xC3, 0xB1], [0x41]].flatten = some false :=
  is_valid_utf8_code_unit_iff.2.2.2 [[0xC3, 0xB1], [0x41]] (by decide) (by decide)

/-! ### The decoded sequence -/

theorem pushFront_eq_ok (a r : List Nat) (x : Option (Except String (List Nat)))
    (h : pushFront a x = some (.ok r)) : ∃ r', x = some (.ok r') ∧ r = a ++ r' := by
  rcases x with _ | _ | r'
  · simp [pushFront] at h
  · simp [pushFront, Except.map] at h
  · refine ⟨r', rfl, ?_⟩
    simpa [pushFront, Except.map] using h.symm

theorem payloadAt_le (str : List Nat) (p : Nat) : payloadAt str p ≤ 0x1FFFFF := by
  obtain ⟨p1, p2, p3, p4⟩ := payload_eq_arith
  rcases utf8_codepoint_size_cases (byteAt str p) with h | h | h | h | h
  · simp [payloadAt, h]
  · have : payloadAt str p = payload [byteAt str p] := by
      simp [payloadAt, payload, h, toByte_and]
    rw [this, p1]; omega
  · have : payloadAt str p = payload [byteAt str p, byteAt str (p + 1)] := by
      simp [payloadAt, payload, h, toByte_and]
    rw [this, p2]; omega
  · have : payloadAt str p = payload [byteAt str p, byteAt str (p + 1), byteAt str (p + 2)] := by
      simp [payloadAt, payload, h, toByte_and]
    rw [this, p3]; omega
  · have : payloadAt str p
        = payload [byteAt str p, byteAt str (p + 1), byteAt str (p + 2), byteAt str (p + 3)] := by
      simp [payloadAt, payload, h, toByte_and]
    rw [this, p4]; omega

/-- One decoder iteration, inverted: a successful result is one codepoint,
the payload of the first unit or U+FFFD, followed by the result for the
bytes after the first unit. -/
theorem utf8_to_utf32_ok_cons (s : List Nat) (e : Bool) (r : List Nat) (hs : s ≠ [])
    (h : utf8_to_utf32 s e = some (.ok r)) :
    ∃ c r', (c = payloadAt s 0 ∨ c = 0xFFFD) ∧ r = c :: r'
      ∧ utf8_to_utf32 (s.drop (advance (byteAt s 0))) e = some (.ok r') := by
  rw [utf8_to_utf32_cons s e hs] at h
  split_ifs at h with hu he
  · obtain ⟨r', hr', rfl⟩ := pushFront_eq_ok _ _ _ h
    exact ⟨_, r', Or.inl rfl, rfl, hr'⟩
  · simp at h
  · obtain ⟨r', hr', rfl⟩ := pushFront_eq_ok _ _ _ h
    exact ⟨_, r', Or.inr rfl, rfl, hr'⟩

theorem utf8_to_utf32_bounds :
    ∀ (m : Nat) (s : List Nat) (e : Bool) (r : List Nat), s.length ≤ m →
      utf8_to_utf32 s e = some (.ok r) → r.length ≤ s.length ∧ ∀ c ∈ r, c ≤ 0x1FFFFF := by
  intro m
  induction m with
  | zero =>
    intro s e r hs h
    obtain rfl : s = [] := List.length_eq_zero.mp (by omega)
    obtain rfl : r = [] := by simpa [utf8_to_utf32] using h.symm
    simp
  | succ m ih =>
    intro s e r hs h
    by_cases hnil : s = []
    · subst hnil
      obtain rfl : r = [] := by simpa [utf8_to_utf32] using h.symm
      simp
    · obtain ⟨c, r', hc, rfl, hr'⟩ := utf8_to_utf32_ok_cons s e r hnil h
      have hpos := advance_pos (byteAt s 0)
      have hlen : 0 < s.length := List.length_pos.mpr hnil
      obtain ⟨h1, h2⟩ := ih (s.drop (advance (byteAt s 0))) e r' (by simp; omega) hr'
      constructor
      · simp only [List.length_cons, List.length_drop] at h1 ⊢
        omega
      · intro x hx
        rcases List.mem_cons.mp hx with rfl | hx
        · rcases hc with rfl | rfl
          · exact payloadAt_le s 0
          · decide
        · exact h2 x hx

/-- C13, as the code has it: every element of a successful result of the
string decoder, with either flag, is an integer in `[0, 0x1FFFFF]`; elements
above `0x10FFFF` occur, since `F4 90 80 80` decodes to `[0x110000]` and
`F7 BF BF BF` to `[0x1FFFFF]`. -/
theorem utf8_to_utf32_codepoint_range :
    (∀ (s : List Nat) (e : Bool) (r : List Nat), utf8_to_utf32 s e = some (.ok r) →
      ∀ c ∈ r, c ≤ 0x1FFFFF)
    ∧ (∀ e, utf8_to_utf32 [0xF4, 0x90, 0x80, 0x80] e = some (.ok [0x110000]))
    ∧ (∀ e, utf8_to_utf32 [0xF7, 0xBF, 0xBF, 0xBF] e = some (.ok [0x1FFFFF])) := by
  refine ⟨?_, by decide, by decide⟩
  intro s e r h
  exact (utf8_to_utf32_bounds s.length s e r (Nat.le_refl _) h).2

theorem utf8_to_utf32_codepoint_range_witness :
    ∀ c ∈ [0x41, 0x1FFFFF], c ≤ 0x1FFFFF :=
  utf8_to_utf32_codepoint_range.1 [0x41, 0xF7, 0xBF, 0xBF, 0xBF] true [0x41, 0x1FFFFF]
    (by decide)

/-- C13 as stated fails at `F4 90 80 80`: with either flag the string decoder
succeeds and returns `[0x110000]`, which is above `0x10FFFF`. -/
theorem utf8_to_utf32_codepoint_range_counterexample :
    utf8_to_utf32 [0xF4, 0x90, 0x80, 0x80] true = some (.ok [0x110000])
      ∧ utf8_to_utf32 [0xF4, 0x90, 0x80, 0x80] false = some (.ok [0x110000])
      ∧ ¬ (∀ (s : List Nat) (e : Bool) (r : List Nat), utf8_to_utf32 s e = some (.ok r) →
            ∀ c ∈ r, c ≤ 0x10FFFF) := by
  refine ⟨by decide, by decide, fun h => ?_⟩
  have := h [0xF4, 0x90, 0x80, 0x80] true [0x110000] (by decide) 0x110000 (by simp)
  omega

/-- C14: for every byte string `s` the codepoint sequence that the string
decoder returns with the flag false is no longer than `s`, and the empty
string decodes to the empty sequence. -/
theorem utf8_to_utf32_length_le :
    (∀ s : List Nat, ∃ r, utf8_to_utf32 s false = some (.ok r) ∧ r.length ≤ s.length)
    ∧ utf8_to_utf32 [] false = some (.ok []) := by
  refine ⟨?_, rfl⟩
  intro s
  obtain ⟨r, hr⟩ := utf8_to_utf32_false_ok s.length s (Nat.le_refl _)
  exact ⟨r, hr, (utf8_to_utf32_bounds s.length s false r (Nat.le_refl _) hr).1⟩

set_option maxRecDepth 100000 in
/-- C17: with the flag false, a lead byte that does not classify is treated
as a malformed unit of exactly one byte: for every byte `b` with
`utf8_codepoint_size b = 0` (the bytes `0x80..0xBF` and `0xF8..0xFF`) and
every `rest`, decoding `b :: rest` gives U+FFFD followed by the decoding of
`rest`. -/
theorem utf8_to_utf32_unclassified_lead :
    (∀ (b : Nat) (rest : List Nat), utf8_codepoint_size b = 0 →
      ∃ r, utf8_to_utf32 rest false = some (.ok r)
        ∧ utf8_to_utf32 (b :: rest) false = some (.ok ([0xFFFD] ++ r)))
    ∧ (∀ b < 256, utf8_codepoint_size b = 0 ↔ ((0x80 ≤ b ∧ b ≤ 0xBF) ∨ 0xF8 ≤ b)) := by
  refine ⟨?_, by decide⟩
  intro b rest hb
  obtain ⟨r, hr⟩ := utf8_to_utf32_false_ok rest.length rest (Nat.le_refl _)
  refine ⟨r, hr, ?_⟩
  have hbyte : byteAt (b :: rest) 0 = b := rfl
  have hu : unitCheck (b :: rest) 0 = false := by simp [unitCheck, hbyte, hb]
  have hadv : advance b = 1 := by simp [advance, hb]
  rw [utf8_to_utf32_cons _ false (by simp), hu, hbyte, hadv]
  simp only [Bool.false_eq_true, if_false, List.drop_succ_cons, List.drop_zero]
  rw [hr]
  rfl

theorem utf8_to_utf32_unclassified_lead_witness :
    ∃ r, utf8_to_utf32 [0xC3, 0xB1] false = some (.ok r)
      ∧ utf8_to_utf32 (0xA0 :: [0xC3, 0xB1]) false = some (.ok ([0xFFFD] ++ r)) :=
  utf8_to_utf32_unclassified_lead.1 0xA0 [0xC3, 0xB1] (by decide)

/-! ### Termination -/

theorem advance_le (b : Nat) : advance b ≤ 4 := by
  have := utf8_codepoint_size_le b
  unfold advance
  split_ifs <;> omega

theorem is_valid_utf8_loop_total (str : List Nat) (end_ : Nat) :
    ∀ (fuel it : Nat), it ≤ end_ → end_ - it ≤ fuel →
      ∃ v, is_valid_utf8_loop str end_ fuel it = some v := by
  intro fuel
  induction fuel with
  | zero =>
    intro it h1 h2
    obtain rfl : it = end_ := by omega
    exact ⟨true, is_valid_utf8_loop_at_end str it 0⟩
  | succ fuel ih =>
    intro it h1 h2
    by_cases hit : it = end_
    · subst hit
      exact ⟨true, is_valid_utf8_loop_at_end str it _⟩
    · rw [is_valid_utf8_loop_step str end_ fuel it hit]
      split_ifs with hgt hu
      · exact ⟨false, rfl⟩
      · have hpos := unitCheck_size_pos str it hu
        exact ih _ (by omega) (by omega)
      · exact ⟨false, rfl⟩

theorem utf8_to_utf32_total (s : List Nat) (e : Bool) : ∃ r, utf8_to_utf32 s e = some r := by
  cases e
  · obtain ⟨r, hr⟩ := utf8_to_utf32_false_ok s.length s (Nat.le_refl _)
    exact ⟨_, hr⟩
  · rcases utf8_to_utf32_true_cases s.length s (Nat.le_refl _) with ⟨-, r, hr, -⟩ | ⟨-, hr⟩
    · exact ⟨_, hr⟩
    · exact ⟨_, hr⟩

/-- C18: the scanning loops of `is_valid_utf8` and of the string decoder
terminate on every input. With as much fuel as there are bytes left to scan
neither loop runs out of fuel, so both entry points return; and every
iteration that does not return or fail goes on from a scan position that is
larger by the classified length 1..4, or by 1 when the classification is 0. -/
theorem loops_terminate :
    (∀ (str : List Nat) (end_ it fuel : Nat), it ≤ end_ → end_ - it ≤ fuel →
      ∃ v, is_valid_utf8_loop str end_ fuel it = some v)
    ∧ (∀ (str : List Nat) (begin end_ : Nat), ∃ v, is_valid_utf8 str begin end_ = some v)
    ∧ (∀ (str : List Nat) (e : Bool) (byte fuel : Nat) (ret : List Nat),
        str.length - byte ≤ fuel → ∃ r, utf8_to_utf32_loop str e fuel byte ret = some r)
    ∧ (∀ (str : List Nat) (e : Bool), ∃ r, utf8_to_utf32 str e = some r)
    ∧ (∀ (str : List Nat) (end_ fuel it : Nat), it ≠ end_ →
        is_valid_utf8_loop str end_ (fuel + 1) it = some false
        ∨ (1 ≤ utf8_codepoint_size (byteAt str it) ∧ utf8_codepoint_size (byteAt str it) ≤ 4
            ∧ is_valid_utf8_loop str end_ (fuel + 1) it
              = is_valid_utf8_loop str end_ fuel (it + utf8_codepoint_size (byteAt str it))))
    ∧ (∀ (str : List Nat) (e : Bool) (fuel byte : Nat) (ret : List Nat), byte < str.length →
        utf8_to_utf32_loop str e (fuel + 1) byte ret = some (.error "Bad UTF-8 sequence.")
        ∨ (1 ≤ advance (byteAt str byte) ∧ advance (byteAt str byte) ≤ 4
            ∧ ∃ c, utf8_to_utf32_loop str e (fuel + 1) byte ret
              = utf8_to_utf32_loop str e fuel (byte + advance (byteAt str byte)) (ret ++ [c])))
    ∧ (∀ b, advance b = if utf8_codepoint_size b = 0 then 1 else utf8_codepoint_size b) := by
  refine ⟨fun str end_ it fuel h1 h2 => is_valid_utf8_loop_total str end_ fuel it h1 h2,
    ?_, ?_, utf8_to_utf32_total, ?_, ?_, fun b => rfl⟩
  · intro str begin end_
    unfold is_valid_utf8
    split_ifs with h
    · exact ⟨false, rfl⟩
    · exact is_valid_utf8_loop_total str end_ _ _ (by omega) (Nat.le_refl _)
  · intro str e byte fuel ret hf
    rw [utf8_to_utf32_loop_drop e (str.length - byte) str byte fuel ret (Nat.le_refl _) hf]
    have hl : str.length - byte = (str.drop byte).length := by simp
    rw [hl, ← utf8_to_utf32_eq_loop]
    obtain ⟨r, hr⟩ := utf8_to_utf32_total (str.drop byte) e
    rw [hr]
    exact ⟨_, rfl⟩
  · intro str end_ fuel it hit
    rw [is_valid_utf8_loop_step str end_ fuel it hit]
    split_ifs with hgt hu
    · exact Or.inl rfl
    · exact Or.inr ⟨unitCheck_size_pos str it hu, utf8_codepoint_size_le _, rfl⟩
    · exact Or.inl rfl
  · intro str e fuel byte ret hb
    rw [utf8_to_utf32_loop_step str e fuel byte ret hb]
    split_ifs with hu he
    · exact Or.inr ⟨advance_pos _, advance_le _, _, rfl⟩
    · exact Or.inl rfl
    · exact Or.inr ⟨advance_pos _, advance_le _, _, rfl⟩

theorem loops_terminate_witness :
    (∃ v, is_valid_utf8_loop [0xE2, 0x82, 0xA1, 0x41] 4 4 0 = some v)
      ∧ ∃ r, utf8_to_utf32_loop [0xE2, 0x82, 0xA1, 0x41] true 4 0 [] = some r :=
  ⟨loops_terminate.1 [0xE2, 0x82, 0xA1, 0x41] 4 0 4 (by decide) (by decide),
    loops_terminate.2.2.1 [0xE2, 0x82, 0xA1, 0x41] true 0 4 [] (by decide)⟩

/-! ### String-level round trip -/

theorem utf8_to_utf32_flatten (units : List (List Nat)) (e : Bool)
    (h : ∀ u ∈ units, wellFormedUnit u = true) :
    utf8_to_utf32 units.flatten e = some (.ok (units.map payload)) := by
  induction units with
  | nil => rfl
  | cons u us ih =>
    rw [List.flatten_cons, utf8_to_utf32_unit_append u _ e (h u (List.mem_cons_self _ _)),
      ih (fun v hv => h v (List.mem_cons_of_mem _ hv))]
    rfl

theorem encodesTo_units (f : Bool) :
    ∀ (cs : List Nat) (parts : List (List Nat)), (∀ c ∈ cs, c ≤ 0x10FFFF) →
      List.Forall₂ (encodesTo f) cs parts →
      (∀ u ∈ parts, wellFormedUnit u = true) ∧ parts.map payload = cs := by
  intro cs parts hcs hparts
  induction hparts with
  | nil => simp
  | @cons c p cs parts hcp _ ih =>
    obtain ⟨u, hu, hwf, hpay⟩ := utf32_to_utf8_unit c (hcs c (List.mem_cons_self _ _)) f
    obtain rfl : u = p := by
      have := hu.symm.trans hcp.1
      simpa using this
    obtain ⟨ih1, ih2⟩ := ih (fun d hd => hcs d (List.mem_cons_of_mem _ hd))
    constructor
    · intro v hv
      rcases List.mem_cons.mp hv with rfl | hv
      · exact hwf
      · exact ih1 v hv
    · rw [List.map_cons, hpay, ih2]

/-- C19: string-level round trip. For every codepoint sequence `cs` all of
whose elements are at most `0x10FFFF` (the empty sequence and sequences that
contain U+0000 included) and for either flag value on each side, the string
encoder returns a byte string and the string decoder applied to it returns
`cs`; neither call fails. -/
theorem utf8_to_utf32_utf32_to_utf8_string (cs : List Nat) (hcs : ∀ c ∈ cs, c ≤ 0x10FFFF)
    (e1 e2 : Bool) :
    ∃ s, utf32_to_utf8_string cs e1 = .ok s ∧ utf8_to_utf32 s e2 = some (.ok cs) := by
  rcases utf32_to_utf8_string_loop_cases e1 cs [] with ⟨⟨-, c, hc, hbad⟩, -⟩
    | ⟨-, parts, hparts, hok⟩
  · have := hcs c hc
    omega
  · obtain ⟨hwf, hmap⟩ := encodesTo_units e1 cs parts hcs hparts
    refine ⟨parts.flatten, by rw [utf32_to_utf8_string, hok, List.nil_append], ?_⟩
    rw [utf8_to_utf32_flatten parts e2 hwf, hmap]

theorem utf8_to_utf32_utf32_to_utf8_string_witness :
    ∃ s, utf32_to_utf8_string [0x41, 0, 0xD800, 0x20AC, 0x10FFFF] true = .ok s
      ∧ utf8_to_utf32 s false = some (.ok [0x41, 0, 0xD800, 0x20AC, 0x10FFFF]) :=
  utf8_to_utf32_utf32_to_utf8_string [0x41, 0, 0xD800, 0x20AC, 0x10FFFF] (by decide) true false

/-- C20: every output of the single-codepoint encoder is one well-formed code
unit. For every value `c` (out-of-range values included, which give
`EF BF BD`) the bytes `s` returned with the flag false satisfy
`is_valid_utf8_code_unit`: `utf8_codepoint_size` of the first byte of `s`
equals the length of `s` and every later byte has the form `10xxxxxx`. -/
theorem utf32_to_utf8_is_code_unit (c : Nat) :
    ∃ s, utf32_to_utf8 c false = .ok s ∧ is_valid_utf8_code_unit s = some true
      ∧ utf8_codepoint_size (byteAt s 0) = s.length
      ∧ ∀ x ∈ s.tail, isContinuation x = true := by
  have key : ∀ s : List Nat, wellFormedUnit s = true →
      is_valid_utf8_code_unit s = some true ∧ utf8_codepoint_size (byteAt s 0) = s.length
        ∧ ∀ x ∈ s.tail, isContinuation x = true := by
    intro s hwf
    refine ⟨by rw [is_valid_utf8_code_unit_eq, hwf], (wellFormedUnit_length s hwf).symm, ?_⟩
    rcases s with _ | ⟨b0, t⟩
    · simp
    · simp only [wellFormedUnit, Bool.and_eq_true, List.all_eq_true] at hwf
      exact hwf.2
  by_cases hc : c ≤ 0x10FFFF
  · obtain ⟨u, hu, hwf, -⟩ := utf32_to_utf8_unit c hc false
    exact ⟨u, hu, key u hwf⟩
  · refine ⟨[0xEF, 0xBF, 0xBD], ?_, key _ (by decide)⟩
    simp [utf32_to_utf8, show ¬ c ≤ 127 by omega, show ¬ c ≤ 2047 by omega,
      show ¬ c ≤ 65535 by omega, hc]

/-! ### The single-byte decoder -/

/-- C15: the single-byte decoder returns zero or one codepoint, whether
`char` is signed or not: the empty sequence for the NUL byte, `[b]` for every
byte `b` in 1..127, and for every byte outside 0..127 a failure with the
message "the char is not in UTF-8 range." when the flag is true and `[U+FFFD]`
when the flag is false. -/
theorem utf8_to_utf32_char_cases (char_is_signed : Bool) (e : Bool) (b : Nat) (hb : b < 256) :
    (b = 0 → utf8_to_utf32_char char_is_signed b e = .ok [])
    ∧ (1 ≤ b → b ≤ 127 → utf8_to_utf32_char char_is_signed b e = .ok [b])
    ∧ (128 ≤ b → e = true →
        utf8_to_utf32_char char_is_signed b e = .error "the char is not in UTF-8 range.")
    ∧ (128 ≤ b → e = false → utf8_to_utf32_char char_is_signed b e = .ok [0xFFFD]) := by
  have h256 : ((b : Int) % 4294967296).toNat = b := by omega
  refine ⟨fun h0 => ?_, fun h1 h2 => ?_, fun h1 he => ?_, fun h1 he => ?_⟩
  · subst h0
    cases char_is_signed <;> simp [utf8_to_utf32_char, charValue]
  · have hne : ¬ (0 : Int) = (b : Int) := by omega
    cases char_is_signed <;>
      simp [utf8_to_utf32_char, charValue, show ¬ 128 ≤ b by omega, hne, h256,
        show ¬ (b : Int) < 0 by omega, show ¬ (127 : Int) < (b : Int) by omega]
  · subst he
    cases char_is_signed
    · simp [utf8_to_utf32_char, charValue, show ¬ (0 : Int) = (b : Int) by omega,
        show (127 : Int) < (b : Int) by omega]
    · simp [utf8_to_utf32_char, charValue, h1, show ¬ (0 : Int) = (b : Int) - 256 by omega,
        show (b : Int) - 256 < 0 by omega]
  · subst he
    cases char_is_signed
    · simp [utf8_to_utf32_char, charValue, show ¬ (0 : Int) = (b : Int) by omega,
        show (127 : Int) < (b : Int) by omega]
    · simp [utf8_to_utf32_char, charValue, h1, show ¬ (0 : Int) = (b : Int) - 256 by omega,
        show (b : Int) - 256 < 0 by omega]

theorem utf8_to_utf32_char_cases_witness :
    utf8_to_utf32_char true 0xC3 false = .ok [0xFFFD] :=
  (utf8_to_utf32_char_cases true false 0xC3 (by decide)).2.2.2 (by decide) rfl

/-! ### The platform bridge -/

/-- C16: for both platform-bridge conversions, whatever the host does: an
empty input returns an empty output without a call to the host; an input
longer than the maximum `int` fails with the size-overflow exception without a
call to the host; and for any other input, when the host reports 0 on the
sizing call or on the converting call, the conversion fails with the Windows
exception that carries the code given by `GetLastError`, made right after the
call that reported 0. -/
theorem platform_bridge_failures (os : HostOS) :
    (to_narrow os [] = (.ok [], [])
      ∧ (∀ input : List Nat, INT_MAX < input.length →
          to_narrow os input = (.error (.exception ("String size is to big "
            ++ toString input.length ++ "/" ++ toString INT_MAX)), []))
      ∧ (∀ input : List Nat, input ≠ [] → input.length ≤ INT_MAX →
          (os [] (.WideCharToMultiByte input input.length 0)).1 = 0 →
          to_narrow os input
            = (.error (.windowsException
                (os [.WideCharToMultiByte input input.length 0] .GetLastError).1),
              [.WideCharToMultiByte input input.length 0, .GetLastError]))
      ∧ (∀ (input : List Nat) (ret_size : Int), input ≠ [] → input.length ≤ INT_MAX →
          (os [] (.WideCharToMultiByte input input.length 0)).1 = ret_size → 0 < ret_size →
          (os [.WideCharToMultiByte input input.length 0]
            (.WideCharToMultiByte input input.length ret_size)).1 = 0 →
          to_narrow os input
            = (.error (.windowsException
                (os [.WideCharToMultiByte input input.length 0,
                  .WideCharToMultiByte input input.length ret_size] .GetLastError).1),
              [.WideCharToMultiByte input input.length 0,
                .WideCharToMultiByte input input.length ret_size, .GetLastError])))
    ∧ (to_wide os [] = (.ok [], [])
      ∧ (∀ input : List Nat, INT_MAX < input.length →
          to_wide os input = (.error (.exception ("String size is to big "
            ++ toString input.length ++ "/" ++ toString INT_MAX)), []))
      ∧ (∀ input : List Nat, input ≠ [] → input.length ≤ INT_MAX →
          (os [] (.MultiByteToWideChar input input.length 0)).1 = 0 →
          to_wide os input
            = (.error (.windowsException
                (os [.MultiByteToWideChar input input.length 0] .GetLastError).1),
              [.MultiByteToWideChar input input.length 0, .GetLastError]))
      ∧ (∀ (input : List Nat) (ret_size : Int), input ≠ [] → input.length ≤ INT_MAX →
          (os [] (.MultiByteToWideChar input input.length 0)).1 = ret_size → 0 < ret_size →
          (os [.MultiByteToWideChar input input.length 0]
            (.MultiByteToWideChar input input.length ret_size)).1 = 0 →
          to_wide os input
            = (.error (.windowsException
                (os [.MultiByteToWideChar input input.length 0,
                  .MultiByteToWideChar input input.length ret_size] .GetLastError).1),
              [.MultiByteToWideChar input input.length 0,
                .MultiByteToWideChar input input.length ret_size, .GetLastError]))) := by
  refine ⟨⟨rfl, ?_, ?_, ?_⟩, ⟨rfl, ?_, ?_, ?_⟩⟩
  · intro input h
    have hne : input ≠ [] := by rintro rfl; simp at h
    simp [to_narrow, hne, h]
  · intro input hne hle h0
    simp [to_narrow, hne, Nat.not_lt.mpr hle, h0]
  · intro input ret_size hne hle hsz hpos h0
    subst hsz
    simp [to_narrow, hne, Nat.not_lt.mpr hle, Int.ne_of_gt hpos, Int.not_lt.mpr (Int.le_of_lt hpos),
      h0]
  · intro input h
    have hne : input ≠ [] := by rintro rfl; simp at h
    simp [to_wide, hne, h]
  · intro input hne hle h0
    simp [to_wide, hne, Nat.not_lt.mpr hle, h0]
  · intro input ret_size hne hle hsz hpos h0
    subst hsz
    simp [to_wide, hne, Nat.not_lt.mpr hle, Int.ne_of_gt hpos, Int.not_lt.mpr (Int.le_of_lt hpos),
      h0]

theorem platform_bridge_failures_witness :
    to_narrow (fun _ _ => (0, [])) [0x41]
        = (.error (.windowsException 0), [.WideCharToMultiByte [0x41] 1 0, .GetLastError])
      ∧ to_wide (fun _ _ => (0, [])) (List.replicate 2147483648 0)
        = (.error (.exception ("String size is to big "
            ++ toString (List.replicate 2147483648 0).length ++ "/" ++ toString INT_MAX)), []) :=
  ⟨(platform_bridge_failures (fun _ _ => (0, []))).1.2.2.1 [0x41] (by decide) (by decide) rfl,
    (platform_bridge_failures (fun _ _ => (0, []))).2.2.1 (List.replicate 2147483648 0)
      (by rw [List.length_replicate]; decide)⟩

/-! ### The reads of the decoder -/

/-- The traced validity loop returns what the validity loop returns. -/
theorem is_valid_utf8_loop_traced_fst (str : List Nat) (end_ : Nat) :
    ∀ (fuel it : Nat) (reads : List Nat),
      (is_valid_utf8_loop_traced str end_ fuel it reads).map Prod.fst
        = is_valid_utf8_loop str end_ fuel it := by
  intro fuel
  induction fuel with
  | zero =>
    intro it reads
    by_cases h : it = end_ <;> simp [is_valid_utf8_loop_traced, is_valid_utf8_loop, h]
  | succ fuel ih =>
    intro it reads
    by_cases hit : it = end_
    · simp [is_valid_utf8_loop_traced, is_valid_utf8_loop, hit]
    rcases utf8_codepoint_size_cases (byteAt str it) with h | h | h | h | h
    · simp [is_valid_utf8_loop_traced, is_valid_utf8_loop, hit, h]
    all_goals
      simp only [is_valid_utf8_loop_traced, is_valid_utf8_loop, hit, h, ne_eq,
        not_false_eq_true, if_true]
      split_ifs <;> simp_all

theorem is_valid_utf8_traced_fst (str : List Nat) (begin end_ : Nat) (reads : List Nat) :
    (is_valid_utf8_traced str begin end_ reads).map Prod.fst = is_valid_utf8 str begin end_ := by
  unfold is_valid_utf8_traced is_valid_utf8
  split_ifs
  · rfl
  · exact is_valid_utf8_loop_traced_fst str end_ _ _ _

theorem utf8_to_utf32_switch_traced_fst (str : List Nat) (byte : Nat) (ret reads : List Nat) :
    (utf8_to_utf32_switch_traced str byte ret reads).map (fun r => (r.1, r.2.1, r.2.2.1))
      = utf8_to_utf32_switch str byte ret := by
  rcases utf8_codepoint_size_cases (byteAt str byte) with h | h | h | h | h
  · simp [utf8_to_utf32_switch_traced, utf8_to_utf32_switch, h]
  all_goals
    simp only [utf8_to_utf32_switch_traced, utf8_to_utf32_switch, h]
    rw [← is_valid_utf8_traced_fst str byte _ reads]
    rcases is_valid_utf8_traced str byte _ reads with _ | ⟨v, rs⟩
    · rfl
    · cases v <;> rfl

/-- The traced decoder loop returns what the decoder loop returns. -/
theorem utf8_to_utf32_loop_traced_fst (str : List Nat) (e : Bool) :
    ∀ (fuel byte : Nat) (ret reads : List Nat),
      (utf8_to_utf32_loop_traced str e fuel byte ret reads).map Prod.fst
        = utf8_to_utf32_loop str e fuel byte ret := by
  intro fuel
  induction fuel with
  | zero =>
    intro byte ret reads
    by_cases h : byte < str.length <;> simp [utf8_to_utf32_loop_traced, utf8_to_utf32_loop, h]
  | succ fuel ih =>
    intro byte ret reads
    by_cases hb : byte < str.length
    · simp only [utf8_to_utf32_loop_traced, utf8_to_utf32_loop, hb, if_true]
      rw [← utf8_to_utf32_switch_traced_fst str byte ret (reads ++ [byte])]
      rcases utf8_to_utf32_switch_traced str byte ret (reads ++ [byte]) with
        _ | ⟨err, byte1, ret1, reads1⟩
      · rfl
      · cases err <;> cases e <;> simp [ih]
    · simp [utf8_to_utf32_loop_traced, utf8_to_utf32_loop, hb]

/-- The traced string decoder returns what the string decoder returns. -/
theorem utf8_to_utf32_traced_fst (str : List Nat) (e : Bool) :
    (utf8_to_utf32_traced str e).map Prod.fst = utf8_to_utf32 str e := by
  unfold utf8_to_utf32_traced utf8_to_utf32
  split_ifs
  · rfl
  · exact utf8_to_utf32_loop_traced_fst str e _ _ _ _

theorem is_valid_utf8_loop_traced_at_end (str : List Nat) (end_ fuel : Nat) (reads : List Nat) :
    is_valid_utf8_loop_traced str end_ fuel end_ reads = some (true, reads) := by
  cases fuel <;> simp [is_valid_utf8_loop_traced]

/-- The check of the unit at `byte`, as the decoder calls it: it reads no
index past the terminating NUL. -/
theorem is_valid_utf8_traced_unit (str : List Nat) (byte : Nat) (reads : List Nat)
    (hb : byte < str.length) (hn : 1 ≤ utf8_codepoint_size (byteAt str byte))
    (h0 : ∀ i ∈ reads, i ≤ str.length) (r : Bool × List Nat)
    (hr : is_valid_utf8_traced str byte (byte + utf8_codepoint_size (byteAt str byte)) reads
      = some r) :
    r.1 = unitCheck str byte ∧ ∀ i ∈ r.2, i ≤ str.length := by
  constructor
  · have h1 := is_valid_utf8_traced_fst str byte
      (byte + utf8_codepoint_size (byteAt str byte)) reads
    rw [hr, is_valid_utf8_unit str byte hn] at h1
    simpa using h1
  · have k1 := lt_length_of_continuation str (byte + 1)
    have k2 := lt_length_of_continuation str (byte + 2)
    rcases utf8_codepoint_size_cases (byteAt str byte) with h | h | h | h | h
    · omega
    all_goals
      simp only [h, is_valid_utf8_traced] at hr
      simp [is_valid_utf8_loop_traced, h, is_valid_utf8_loop_traced_at_end] at hr
      split_ifs at hr <;>
        · cases hr
          intro i hi
          simp only [List.mem_append, List.mem_cons, List.mem_singleton, List.not_mem_nil,
            or_false] at hi
          rcases hi with hi | hi
          · exact h0 i hi
          · omega

theorem utf8_to_utf32_switch_traced_reads (str : List Nat) (byte : Nat) (ret reads : List Nat)
    (hb : byte < str.length) (h0 : ∀ i ∈ reads, i ≤ str.length)
    (r : Bool × Nat × List Nat × List Nat)
    (hr : utf8_to_utf32_switch_traced str byte ret reads = some r) :
    ∀ i ∈ r.2.2.2, i ≤ str.length := by
  rcases utf8_codepoint_size_cases (byteAt str byte) with h | h | h | h | h
  · simp only [utf8_to_utf32_switch_traced, h] at hr
    cases hr
    exact h0
  all_goals
    have hunit := is_valid_utf8_traced_unit str byte reads hb (by omega) h0
    rw [h] at hunit
    simp only [utf8_to_utf32_switch_traced, h, Option.map_eq_some'] at hr
    obtain ⟨v, hv, rfl⟩ := hr
    obtain ⟨hv1, hv2⟩ := hunit v hv
    split_ifs with hvalid
    · rw [hv1] at hvalid
      have hbound := unitCheck_bound str byte hb hvalid
      rw [h] at hbound
      intro i hi
      simp only [List.mem_append, List.mem_cons, List.mem_singleton, List.not_mem_nil,
        or_false] at hi
      rcases hi with hi | hi
      · exact hv2 i hi
      · omega
    · exact hv2

/-- Every index that the decoder loop reads is at most the length of the
string: the loop never reads past the terminating NUL. -/
theorem utf8_to_utf32_loop_traced_reads (str : List Nat) (e : Bool) :
    ∀ (fuel byte : Nat) (ret reads : List Nat) (r : Except String (List Nat) × List Nat),
      (∀ i ∈ reads, i ≤ str.length) →
      utf8_to_utf32_loop_traced str e fuel byte ret reads = some r →
      ∀ i ∈ r.2, i ≤ str.length := by
  intro fuel
  induction fuel with
  | zero =>
    intro byte ret reads r h0 hr
    by_cases hb : byte < str.length
    · simp [utf8_to_utf32_loop_traced, hb] at hr
    · simp only [utf8_to_utf32_loop_traced, hb, if_false] at hr
      cases hr
      exact h0
  | succ fuel ih =>
    intro byte ret reads r h0 hr
    by_cases hb : byte < str.length
    · have h1 : ∀ i ∈ reads ++ [byte], i ≤ str.length := by
        intro i hi
        rcases List.mem_append.mp hi with hi | hi
        · exact h0 i hi
        · simp only [List.mem_singleton] at hi
          omega
      simp only [utf8_to_utf32_loop_traced, hb, if_true] at hr
      rcases hsw : utf8_to_utf32_switch_traced str byte ret (reads ++ [byte]) with
        _ | ⟨err, byte1, ret1, reads1⟩
      · rw [hsw] at hr
        simp at hr
      · have h2 := utf8_to_utf32_switch_traced_reads str byte ret (reads ++ [byte]) hb h1 _ hsw
        rw [hsw] at hr
        simp only at hr
        split_ifs at hr
        · cases hr
          exact h2
        · exact ih _ _ _ _ h2 hr
        · exact ih _ _ _ _ h2 hr
    · simp only [utf8_to_utf32_loop_traced, hb, if_false] at hr
      cases hr
      exact h0

/-- Every index that the string decoder reads, itself or through the
`is_valid_utf8` calls it makes, is at most the length of the string. -/
theorem utf8_to_utf32_traced_reads_le (str : List Nat) (e : Bool)
    (r : Except String (List Nat) × List Nat) (hr : utf8_to_utf32_traced str e = some r) :
    ∀ i ∈ r.2, i ≤ str.length := by
  unfold utf8_to_utf32_traced at hr
  split_ifs at hr
  · cases hr
    simp
  · exact utf8_to_utf32_loop_traced_reads str e _ _ _ _ r (by simp) hr

/-- C21 fails on a string that ends in a truncated multi-byte unit. On the
one-byte string `C3` the decoder classifies the byte as a 2-byte lead and
checks the sub-range of indices 0 and 1, so that `is_valid_utf8` reads index
1, the length of the string; on the two-byte string `E2 82` it reads index 2.
So not every index read is below the length of the string. -/
theorem utf8_to_utf32_reads_terminator :
    utf8_to_utf32_traced [0xC3] false = some (.ok [0xFFFD], [0, 0, 0, 1])
      ∧ utf8_to_utf32_traced [0xC3] true = some (.error "Bad UTF-8 sequence.", [0, 0, 0, 1])
      ∧ [0xC3].length = 1
      ∧ utf8_to_utf32_traced [0xE2, 0x82] false = some (.ok [0xFFFD], [0, 0, 0, 1, 2])
      ∧ utf8_to_utf32_traced [0xE2, 0x82] true
          = some (.error "Bad UTF-8 sequence.", [0, 0, 0, 1, 2])
      ∧ [0xE2, 0x82].length = 2
      ∧ ¬ (∀ (s : List Nat) (e : Bool) (r : Except String (List Nat) × List Nat),
            utf8_to_utf32_traced s e = some r → ∀ i ∈ r.2, i < s.length) := by
  refine ⟨by decide, by decide, rfl, by decide, by decide, rfl, fun h => ?_⟩
  have := h [0xC3] false (.ok [0xFFFD], [0, 0, 0, 1]) (by decide) 1 (by simp)
  simp at this

end Term.Private
